import Mathlib

/-
Verification development for the ComponentV2 parser.

The development shallowly embeds the two source modules:

  * parseCache.py  — a content-hash keyed result cache with a TTL, and
  * buttonParser.py — an AST visitor that extracts UI component records,
    resolves select-menu option lists, and reconstructs the layout
    hierarchy from relationship-establishing calls.

Python dicts are modelled as association lists with insert-or-replace
semantics, Python floats (timestamps, TTL) as exact integers or rationals,
and Python object identity (id(node)) as an explicit numeric node identity
carried on every call expression.  The visitor recursion is driven by an
explicit work list with a structural fuel parameter standing in for the
Python recursion limit; all definitions are executable.
-/

set_option linter.unusedVariables false

namespace CV2

/-! ## Dictionary helpers

Python dict semantics over association lists: lookup finds the unique
binding, insert replaces an existing binding in place or appends a fresh
one at the end (matching dict insertion-order behaviour), pop removes the
binding. -/

def dictGet {α : Type} (k : String) : List (String × α) → Option α
  | [] => none
  | p :: t => if p.1 == k then some p.2 else dictGet k t

def dictInsert {α : Type} (k : String) (v : α) : List (String × α) → List (String × α)
  | [] => [(k, v)]
  | p :: t => if p.1 == k then (k, v) :: t else p :: dictInsert k v t

def dictPop {α : Type} (k : String) : List (String × α) → List (String × α)
  | [] => []
  | p :: t => if p.1 == k then t else p :: dictPop k t

/-! ## Result cache (parseCache.py)

`CacheEntry` and `ParseCache` mirror the classes of the same names.  The
result payload is an arbitrary type `α` (the cache never inspects it), the
SHA-256 content hash is modelled as an abstract hash function `h` passed to
the operations, and `time.time()` is modelled by passing the current time
`now` explicitly.  Python float times are modelled as exact integers. -/

structure CacheEntry (α : Type) where
  content_hash : String
  result : α
  timestamp : Int
  deriving DecidableEq, Repr

structure ParseCache (α : Type) where
  cache : List (String × CacheEntry α)
  max_age : Int
  hits : Nat
  misses : Nat
  deriving DecidableEq, Repr

/-- Constructor `ParseCache.__init__`; the source default for `max_age` is 30
seconds. -/
def ParseCache.init (α : Type) (max_age : Int) : ParseCache α :=
  ⟨[], max_age, 0, 0⟩

/-- Method `ParseCache.get`: returns the cached result and the updated cache
state.  A missing entry, a content-hash mismatch, or an expired entry is a
miss; the two latter cases additionally evict the entry. -/
def ParseCache.get {α : Type} (h : String → String) (now : Int)
    (c : ParseCache α) (file_path content : String) : Option α × ParseCache α :=
  match dictGet file_path c.cache with
  | none => (none, { c with misses := c.misses + 1 })
  | some entry =>
    let content_hash := h content
    if entry.content_hash ≠ content_hash then
      (none, { c with cache := dictPop file_path c.cache, misses := c.misses + 1 })
    else
      let age := now - entry.timestamp
      if age > c.max_age then
        (none, { c with cache := dictPop file_path c.cache, misses := c.misses + 1 })
      else
        (some entry.result, { c with hits := c.hits + 1 })

/-- Method `ParseCache.set`: stores or overwrites unconditionally with a
fresh timestamp. -/
def ParseCache.set {α : Type} (h : String → String) (now : Int)
    (c : ParseCache α) (file_path content : String) (result : α) : ParseCache α :=
  { c with cache := dictInsert file_path ⟨h content, result, now⟩ c.cache }

/-- Method `ParseCache.invalidate`. -/
def ParseCache.invalidate {α : Type} (c : ParseCache α) (file_path : String) : ParseCache α :=
  { c with cache := dictPop file_path c.cache }

/-- Method `ParseCache.clear`: removes all entries and resets both counters. -/
def ParseCache.clear {α : Type} (c : ParseCache α) : ParseCache α :=
  { c with cache := [], hits := 0, misses := 0 }

structure CacheStats where
  hits : Nat
  misses : Nat
  total_requests : Nat
  hit_rate_percent : ℚ
  cached_files : Nat
  deriving DecidableEq, Repr

/-- Model of the Python `round(x, 2)`.  Python rounds floats; here the
computation is exact over rationals (the rounding mode difference at exact
half-way points is immaterial to the claims, which only use the zero case). -/
def pyRound2 (x : ℚ) : ℚ := ((round (x * 100) : ℤ) : ℚ) / 100

/-- Method `ParseCache.get_stats`. -/
def ParseCache.get_stats {α : Type} (c : ParseCache α) : CacheStats :=
  let total := c.hits + c.misses
  let hit_rate : ℚ := if total > 0 then (c.hits : ℚ) / (total : ℚ) * 100 else 0
  ⟨c.hits, c.misses, total, pyRound2 hit_rate, c.cache.length⟩

/-! ## String helpers

Python string operations used by the parser: the `in` substring test,
`str.lower()`, and `str.split(".")[-1]`. -/

/-- Does the character list `t` start with the character list `p`. -/
def listStarts (p t : List Char) : Bool :=
  match p, t with
  | [], _ => true
  | _ :: _, [] => false
  | a :: as, b :: bs => a == b && listStarts as bs

/-- Does the character list `t` contain `p` as a contiguous sublist. -/
def listHasSub (p t : List Char) : Bool :=
  listStarts p t ||
    match t with
    | [] => false
    | _ :: ts => listHasSub p ts

/-- Python `pat in s` on strings. -/
def pyIn (pat s : String) : Bool := listHasSub pat.data s.data

/-- Python `s.lower()` (all inputs of interest are ASCII). -/
def pyLower (s : String) : String := String.mk (s.data.map Char.toLower)

/-- Split a character list on the dot character, mirroring Python
`str.split(".")`: the result is always non-empty and empty segments are
kept. -/
def splitDot : List Char → List (List Char)
  | [] => [[]]
  | c :: cs =>
    if c == '.' then [] :: splitDot cs
    else
      match splitDot cs with
      | [] => [[c]]
      | h :: t => (c :: h) :: t

/-- Python `s.split(".")[-1]`. -/
def pySplitDotLast (s : String) : String := String.mk ((splitDot s.data).getLastD [])

/-- Python truthiness of an optional string (`None` and the empty string are
falsy). -/
def truthyS : Option String → Bool
  | some s => s ≠ ""
  | none => false

/-! ## Python AST fragment

The expression and statement shapes the visitor inspects.  Every call
expression carries a numeric node identity `nid` standing for the CPython
`id(node)` used by the processed-node set, plus its source line.  The
constructor `dyn` stands for any expression form the visitor has no branch
for (an f-string, a binary operation, ...); such forms are modelled without
children. -/

inductive SVal where
  | sstr (v : String)
  | sint (v : Int)
  | sbool (v : Bool)
  | snone
  deriving DecidableEq, Repr

inductive PExpr where
  | const (v : SVal)
  | name (nm : String)
  | attr (value : PExpr) (an : String)
  | call (nid : Nat) (lineno : Nat) (func : PExpr) (args : List PExpr)
      (keywords : List (Option String × PExpr))
  | ifExp (test body orelse : PExpr)
  | listE (elts : List PExpr)
  | listComp (elt : PExpr)
  | dyn
  deriving Repr

inductive PTarget where
  | tname (nm : String)
  | tother
  deriving Repr

inductive PStmt where
  | assign (targets : List PTarget) (value : PExpr) (lineno : Nat)
  | annAssign (target : PTarget) (value : Option PExpr) (lineno : Nat)
  | exprStmt (value : PExpr)
  | funcDef (nm : String) (decorators : List PExpr) (body : List PStmt) (lineno : Nat)
  | classDef (nm : String) (bases : List PExpr) (body : List PStmt) (lineno : Nat)
  deriving Repr

/-! ## Values and component records -/

/-- Values the evaluator and the extractors produce.  Python `None` results
are represented by `Option.none` at the use sites, so there is no dedicated
constructor for it here. -/
inductive PyVal where
  | str (v : String)
  | int (v : Int)
  | bool (v : Bool)
  | list (l : List PyVal)

/-- A property value: either a plain value or an extracted select-option
list (each option is a small dict of evaluated fields). -/
inductive PropVal where
  | v (x : PyVal)
  | options (l : List (List (String × PyVal)))

/-- One extracted component record `(type, properties, line)`.  The `origin`
field is a provenance ghost annotation, not a field of the Python dict: it
records the node identity of the call expression the record was extracted
from, so that the no-duplicate-emission property can be stated. -/
structure Component where
  type : String
  properties : List (String × PropVal)
  line : Nat
  origin : Nat

structure PError where
  severity : String
  message : String
  line : Option Nat
  deriving DecidableEq, Repr

/-- A value of the `hierarchy_tracking` dict: an item node wrapping a
component, or a container / section / action-row tracking record. -/
inductive HNode where
  | item (data : Component) (line : Nat)
  | container (label : Option PyVal) (line : Nat)
  | section (label : Option PyVal) (line : Nat)
  | actionrow (row : Int) (line : Nat)

/-- A relationship edge recorded by `_track_hierarchy_call`. -/
structure HRel where
  parent : String
  child : String
  method : String
  line : Nat
  deriving DecidableEq, Repr

/-- A node of the built hierarchy tree (`_build_node_tree` result): the
tracked node data (none when the variable is untracked) and an optional
children list (absent when the node is an item with no children). -/
inductive TreeNode where
  | node (data : Option HNode) (children : Option (List TreeNode))

/-- One entry of `self.views`. -/
structure ViewRec where
  name : Option String
  type : Option String
  line : Option Nat
  components : List Component
  children : List TreeNode
  isLayoutView : Bool
  requiresManualLayout : Bool

/-- A class context saved by `visit_ClassDef` before it descends into the
class body: the previous `current_class`, `current_class_type`,
`current_class_line` and `class_components`, together with the computed
`is_layout_view` flag of the class being entered. -/
structure ClassCtx where
  prevClass : Option String
  prevType : Option String
  prevLine : Option Nat
  prevComps : List Component
  isLayout : Bool

/-- The mutable visitor state (`ComponentVisitor.__init__`).  The source
field `variables` is spelled `variables'` here because `variables` is a
reserved word in Lean.  The unused `callbacks` dict of the source (written
nowhere) is omitted.  The two stack fields at the end are not attributes of
the Python object: they model the local variables of `visit_ClassDef` and
`visit_FunctionDef` that save and restore context around `generic_visit`,
which an explicit work-list traversal has to keep in the state. -/
structure Visitor where
  components : List Component
  errors : List PError
  views : List ViewRec
  current_class : Option String
  current_class_type : Option String
  current_class_line : Option Nat
  class_components : List Component
  in_init_method : Bool
  processed_nodes : List Nat
  variables' : List (String × PExpr)
  hierarchy_tracking : List (String × HNode)
  hierarchy_relationships : List HRel
  class_ctx_stack : List ClassCtx
  init_flag_stack : List Bool

def initVisitor : Visitor :=
  ⟨[], [], [], none, none, none, [], false, [], [], [], [], [], []⟩

/-! ## Pattern matcher

The `_is_*_call` predicates all share one shape: the callee is accepted as
`<anything>.ui.NAME`, `ui.NAME`, or (when direct import is accepted) a bare
`NAME`.  `uiCallMatch` captures that shared shape exactly as the chained
`isinstance` tests do. -/

/-- Shared body of the `_is_*_call` predicates: callee is an attribute whose
name is in `names` and whose owner is either an attribute ending in `ui` or
the bare name `ui`; or a bare name in `names`. -/
def uiCallMatch (names : List String) (func : PExpr) : Bool :=
  match func with
  | .attr (.attr _ a2) a1 => names.contains a1 && a2 == "ui"
  | .attr (.name v) a1 => names.contains a1 && v == "ui"
  | .name n => names.contains n
  | _ => false

def _is_button_call (func : PExpr) : Bool := uiCallMatch ["Button"] func

def select_names : List String :=
  ["Select", "StringSelect", "UserSelect", "RoleSelect", "ChannelSelect"]

def _is_select_menu_call (func : PExpr) : Bool := uiCallMatch select_names func

def _is_text_input_call (func : PExpr) : Bool := uiCallMatch ["TextInput"] func

def _is_container_call (func : PExpr) : Bool := uiCallMatch ["Container"] func

def _is_section_call (func : PExpr) : Bool := uiCallMatch ["Section"] func

def _is_action_row_call (func : PExpr) : Bool := uiCallMatch ["ActionRow"] func

def _is_text_display_call (func : PExpr) : Bool := uiCallMatch ["TextDisplay"] func

def _is_label_call (func : PExpr) : Bool := uiCallMatch ["Label"] func

def _is_separator_call (func : PExpr) : Bool := uiCallMatch ["Separator"] func

def _is_thumbnail_call (func : PExpr) : Bool := uiCallMatch ["Thumbnail"] func

def _is_file_call (func : PExpr) : Bool := uiCallMatch ["File"] func

def _is_media_gallery_call (func : PExpr) : Bool := uiCallMatch ["MediaGallery"] func

def _is_file_upload_call (func : PExpr) : Bool := uiCallMatch ["FileUpload"] func

/-- `_is_select_option_call`: bare name `SelectOption` or an attribute named
`SelectOption` with any owner. -/
def _is_select_option_call (func : PExpr) : Bool :=
  match func with
  | .name n => n == "SelectOption"
  | .attr _ a => a == "SelectOption"
  | _ => false

/-- `_is_add_item_call`: any `<receiver>.add_item(...)`. -/
def _is_add_item_call (func : PExpr) : Bool :=
  match func with
  | .attr _ a => a == "add_item"
  | _ => false

/-- `_is_hierarchy_method`: any `<receiver>.<method_name>(...)`. -/
def _is_hierarchy_method (func : PExpr) (method_name : String) : Bool :=
  match func with
  | .attr _ a => a == method_name
  | _ => false

/-- `_is_button_decorator`: `<x>.<y>.button` requires `y = ui`; `<name>.button`
accepts any owner name. -/
def _is_button_decorator (func : PExpr) : Bool :=
  match func with
  | .attr (.attr _ a2) a1 => a1 == "button" && a2 == "ui"
  | .attr (.name _) a1 => a1 == "button"
  | _ => false

def select_decorator_names : List String :=
  ["select", "string_select", "user_select", "role_select", "channel_select"]

/-- `_is_select_decorator`: same owner rule as the button decorator. -/
def _is_select_decorator (func : PExpr) : Bool :=
  match func with
  | .attr (.attr _ a2) a1 => select_decorator_names.contains a1 && a2 == "ui"
  | .attr (.name _) a1 => select_decorator_names.contains a1
  | _ => false

/-- `_get_base_name`: a bare name yields its identifier, an attribute yields
its final attribute name, anything else the empty string. -/
def _get_base_name (node : PExpr) : String :=
  match node with
  | .name n => n
  | .attr _ a => a
  | _ => ""

/-- The base-class scan of `visit_ClassDef`: first base whose name contains
`LayoutView`, `View` or `Modal` (checked in that order per base, loop breaks
at the first match) decides the class type; the boolean is
`is_layout_view`. -/
def classTypeOf : List PExpr → Option (String × Bool)
  | [] => none
  | b :: rest =>
    let base_name := _get_base_name b
    if pyIn "LayoutView" base_name then some ("LayoutView", true)
    else if pyIn "View" base_name then some ("View", false)
    else if pyIn "Modal" base_name then some ("Modal", false)
    else classTypeOf rest

/-! ## Value evaluation -/

/-- `_evaluate_attribute`: collect the attribute chain into a dot-joined
path; a non-name innermost expression contributes nothing. -/
def attrParts : PExpr → List String
  | .attr v a => attrParts v ++ [a]
  | .name n => [n]
  | _ => []

def _evaluate_attribute (node : PExpr) : String :=
  String.intercalate "." (attrParts node)

/-- `_evaluate_value`: a constant yields its payload (a `None` payload is
returned as Python `None`, i.e. `Option.none`), an attribute chain yields a
dot-joined string, a bare name yields the `<variable:NAME>` placeholder, and
every other form yields `None`.  The `try/except` of the source appends a
warning to `self.errors` only when the body raises; no operation in the body
can raise, so the evaluator is modelled as returning the value alone and
never touching the error list. -/
def _evaluate_value (node : PExpr) : Option PyVal :=
  match node with
  | .const v =>
    match v with
    | .sstr s => some (.str s)
    | .sint n => some (.int n)
    | .sbool b => some (.bool b)
    | .snone => none
  | .attr v a => some (.str (_evaluate_attribute (.attr v a)))
  | .name n => some (.str ("<variable:" ++ n ++ ">"))
  | _ => none

/-! ## Style and spacing normalization -/

/-- The `style_map` dict of `_normalize_button_style`, in insertion order. -/
def style_map : List (String × String) :=
  [("ButtonStyle.primary", "primary"),
   ("ButtonStyle.secondary", "secondary"),
   ("ButtonStyle.success", "success"),
   ("ButtonStyle.green", "success"),
   ("ButtonStyle.danger", "danger"),
   ("ButtonStyle.red", "danger"),
   ("ButtonStyle.link", "link"),
   ("ButtonStyle.blurple", "primary"),
   ("ButtonStyle.grey", "secondary"),
   ("ButtonStyle.gray", "secondary")]

/-- `_normalize_button_style`: first pattern of `style_map` contained in the
style string wins; otherwise the lowercased final dot-segment is mapped
through the alias table; otherwise `secondary`. -/
def _normalize_button_style (style : String) : String :=
  match style_map.find? (fun p => pyIn p.1 style) with
  | some p => p.2
  | none =>
    let simple_style := pyLower (pySplitDotLast style)
    if ["primary", "secondary", "success", "danger", "link"].contains simple_style then
      simple_style
    else if simple_style == "green" then "success"
    else if simple_style == "red" then "danger"
    else if ["grey", "gray"].contains simple_style then "secondary"
    else if simple_style == "blurple" then "primary"
    else "secondary"

/-- `_normalize_text_input_style`: substring match on the lowercased style. -/
def _normalize_text_input_style (style : String) : String :=
  if pyIn "short" (pyLower style) then "short"
  else if pyIn "paragraph" (pyLower style) || pyIn "long" (pyLower style) then "paragraph"
  else "short"

/-! ## Select option resolution -/

/-- Python truthiness of an optional list (`None` and `[]` are falsy). -/
def optTruthy {α : Type} : Option (List α) → Bool
  | some l => !l.isEmpty
  | none => false

/-- `_extract_single_select_option`: fold the keyword arguments through the
option allow-list; an unevaluable value becomes the `<dynamic>` marker; an
empty property dict yields `None`. -/
def _extract_single_select_option (kws : List (Option String × PExpr)) :
    Option (List (String × PyVal)) :=
  let option_props := kws.foldl (fun props kw =>
    match kw.1 with
    | some arg_name =>
      if ["label", "value", "description", "emoji", "default"].contains arg_name then
        match _evaluate_value kw.2 with
        | some value => dictInsert arg_name value props
        | none => dictInsert arg_name (.str "<dynamic>") props
      else props
    | none => props) []
  if option_props.isEmpty then none else some option_props

/-- Stand-in for the CPython recursion limit bounding the recursion of
`_extract_select_options`. -/
def recursionLimit : Nat := 1000

/-- The variable resolution step at the head of `_extract_select_options`:
a bare name bound in the variables dict is replaced by its bound
expression. -/
def resolveVar (vars : List (String × PExpr)) (e : PExpr) : PExpr :=
  match e with
  | .name variable_name =>
    match dictGet variable_name vars with
    | some bound => bound
    | none => e
  | _ => e

/-- `_extract_select_options`: resolve a bare name through the variables
dict (one substitution step), then handle a ternary (true branch preferred,
false branch on falsy true branch), a list comprehension (one template
option when the element is a `SelectOption` call), or a list literal
(option-extract every call element, `None` when nothing was produced).  The
fuel argument bounds the recursion; the source relies on the interpreter
recursion limit instead. -/
def _extract_select_options (vars : List (String × PExpr)) :
    Nat → PExpr → Option (List (List (String × PyVal)))
  | 0, _ => none
  | fuel + 1, e =>
    match resolveVar vars e with
    | .ifExp _ body orelse =>
      let true_options := _extract_select_options vars fuel body
      let false_options := _extract_select_options vars fuel orelse
      if optTruthy true_options then true_options
      else if optTruthy false_options then false_options
      else none
    | .listComp elt =>
      match elt with
      | .call _ _ func _ kws =>
        if _is_select_option_call func then
          match _extract_single_select_option kws with
          | some option_template => some [option_template]
          | none => none
        else none
      | _ => none
    | .listE elts =>
      let options := elts.filterMap (fun element =>
        match element with
        | .call _ _ _ _ kws => _extract_single_select_option kws
        | _ => none)
      if options.isEmpty then none else some options
    | _ => none

/-! ## Property extractors

Each `_extract_*_properties` function folds the keyword arguments of the
matched call through the allow-list of its kind, appends the resulting
component record to `components` (and to `class_components` when a class is
active), and records an item node in `hierarchy_tracking` when the component
was bound to a variable.  The loop bodies are named `*PropStep`, the
property dicts `*Properties`, and the shared tail is `pushComponent`. -/

def pushComponent (st : Visitor) (data : Component) (variable_name : Option String)
    (line : Nat) : Visitor :=
  let st1 := { st with components := st.components ++ [data] }
  let st2 :=
    if truthyS st1.current_class then
      { st1 with class_components := st1.class_components ++ [data] }
    else st1
  if truthyS variable_name then
    { st2 with hierarchy_tracking :=
        dictInsert (variable_name.getD "") (HNode.item data line) st2.hierarchy_tracking }
  else st2

/-- Append the callback property when a callback name is present (shared by
the button, select-menu and text-input extractors). -/
def withCallback (callback : Option String) (properties : List (String × PropVal)) :
    List (String × PropVal) :=
  if truthyS callback then
    dictInsert "callback" (PropVal.v (.str (callback.getD ""))) properties
  else properties

def button_allow : List String :=
  ["label", "style", "custom_id", "disabled", "emoji", "url", "row"]

def buttonPropStep (props : List (String × PropVal)) (kw : Option String × PExpr) :
    List (String × PropVal) :=
  match kw.1 with
  | some arg_name =>
    if button_allow.contains arg_name then
      match _evaluate_value kw.2 with
      | some value =>
        let value := if arg_name == "style" then
            match value with
            | .str s => PyVal.str (_normalize_button_style s)
            | _ => value
          else value
        dictInsert arg_name (PropVal.v value) props
      | none => props
    else props
  | none => props

def buttonProperties (kws : List (Option String × PExpr))
    (callback : Option String) : List (String × PropVal) :=
  withCallback callback (kws.foldl buttonPropStep [])

def _extract_button_properties (st : Visitor) (nid : Nat)
    (kws : List (Option String × PExpr)) (line : Nat)
    (callback variable_name : Option String) : Visitor :=
  pushComponent st ⟨"button", buttonProperties kws callback, line, nid⟩ variable_name line

def select_allow : List String :=
  ["custom_id", "placeholder", "min_values", "max_values", "disabled", "row"]

def selectPropStep (vars : List (String × PExpr)) (props : List (String × PropVal))
    (kw : Option String × PExpr) : List (String × PropVal) :=
  match kw.1 with
  | some arg_name =>
    if select_allow.contains arg_name then
      match _evaluate_value kw.2 with
      | some value => dictInsert arg_name (PropVal.v value) props
      | none => props
    else if arg_name == "options" then
      let options := _extract_select_options vars recursionLimit kw.2
      if optTruthy options then
        dictInsert "options" (PropVal.options (options.getD [])) props
      else props
    else props
  | none => props

def selectProperties (vars : List (String × PExpr))
    (kws : List (Option String × PExpr)) (callback : Option String) :
    List (String × PropVal) :=
  withCallback callback (kws.foldl (selectPropStep vars) [])

def _extract_select_menu_properties (st : Visitor) (nid : Nat)
    (kws : List (Option String × PExpr)) (line : Nat)
    (callback variable_name : Option String) : Visitor :=
  pushComponent st ⟨"select_menu", selectProperties st.variables' kws callback, line, nid⟩
    variable_name line

def text_input_allow : List String :=
  ["label", "style", "custom_id", "placeholder", "default", "required",
   "min_length", "max_length", "row"]

def textInputPropStep (props : List (String × PropVal)) (kw : Option String × PExpr) :
    List (String × PropVal) :=
  match kw.1 with
  | some arg_name =>
    if text_input_allow.contains arg_name then
      match _evaluate_value kw.2 with
      | some value =>
        let value := if arg_name == "style" then
            match value with
            | .str s => PyVal.str (_normalize_text_input_style s)
            | _ => value
          else value
        dictInsert arg_name (PropVal.v value) props
      | none => props
    else props
  | none => props

def textInputProperties (kws : List (Option String × PExpr))
    (callback : Option String) : List (String × PropVal) :=
  withCallback callback (kws.foldl textInputPropStep [])

def _extract_text_input_properties (st : Visitor) (nid : Nat)
    (kws : List (Option String × PExpr)) (line : Nat)
    (callback variable_name : Option String) : Visitor :=
  pushComponent st ⟨"text_input", textInputProperties kws callback, line, nid⟩
    variable_name line

/-- Shared shape of the extractors whose allow-listed keywords are stored
with no normalization (text display, label, thumbnail, file keywords, file
upload). -/
def plainPropStep (allow : List String) (props : List (String × PropVal))
    (kw : Option String × PExpr) : List (String × PropVal) :=
  match kw.1 with
  | some arg_name =>
    if allow.contains arg_name then
      match _evaluate_value kw.2 with
      | some value => dictInsert arg_name (PropVal.v value) props
      | none => props
    else props
  | none => props

def _extract_text_display_properties (st : Visitor) (nid : Nat)
    (kws : List (Option String × PExpr)) (line : Nat)
    (variable_name : Option String) : Visitor :=
  pushComponent st
    ⟨"text_display", kws.foldl (plainPropStep ["content", "style"]) [], line, nid⟩
    variable_name line

def _extract_label_properties (st : Visitor) (nid : Nat)
    (kws : List (Option String × PExpr)) (line : Nat)
    (variable_name : Option String) : Visitor :=
  pushComponent st ⟨"label", kws.foldl (plainPropStep ["text", "for"]) [], line, nid⟩
    variable_name line

def separatorPropStep (props : List (String × PropVal)) (kw : Option String × PExpr) :
    List (String × PropVal) :=
  match kw.1 with
  | some arg_name =>
    if arg_name == "spacing" then
      match _evaluate_value kw.2 with
      | some value =>
        match value with
        | .str s =>
          let spacing_lower := pyLower s
          if pyIn "small" spacing_lower then
            dictInsert "spacing" (PropVal.v (.str "small")) props
          else if pyIn "medium" spacing_lower then
            dictInsert "spacing" (PropVal.v (.str "medium")) props
          else if pyIn "large" spacing_lower then
            dictInsert "spacing" (PropVal.v (.str "large")) props
          else
            dictInsert "spacing" (PropVal.v (.str "medium")) props
        | _ => props
      | none => props
    else props
  | none => props

def separatorProperties (kws : List (Option String × PExpr)) :
    List (String × PropVal) :=
  kws.foldl separatorPropStep []

def _extract_separator_properties (st : Visitor) (nid : Nat)
    (kws : List (Option String × PExpr)) (line : Nat)
    (variable_name : Option String) : Visitor :=
  pushComponent st ⟨"separator", separatorProperties kws, line, nid⟩ variable_name line

def _extract_thumbnail_properties (st : Visitor) (nid : Nat)
    (kws : List (Option String × PExpr)) (line : Nat)
    (variable_name : Option String) : Visitor :=
  pushComponent st
    ⟨"thumbnail", kws.foldl (plainPropStep ["url", "alt", "width", "height"]) [], line, nid⟩
    variable_name line

/-- The property dict of a file component: keyword fold plus the positional
filename fallback. -/
def fileProperties (args : List PExpr) (kws : List (Option String × PExpr)) :
    List (String × PropVal) :=
  let properties := kws.foldl (plainPropStep ["filename", "url", "size"]) []
  match args with
  | a :: _ =>
    if (dictGet "filename" properties).isNone then
      match _evaluate_value a with
      | some filename_val => dictInsert "filename" (PropVal.v filename_val) properties
      | none => properties
    else properties
  | [] => properties

def _extract_file_properties (st : Visitor) (nid : Nat) (args : List PExpr)
    (kws : List (Option String × PExpr)) (line : Nat)
    (variable_name : Option String) : Visitor :=
  pushComponent st ⟨"file", fileProperties args kws, line, nid⟩ variable_name line

/-- The media-gallery items handling: a list value stores both the count and
the verbatim list, any other evaluated value stores the `<dynamic>` marker
(the insertion order of the two keys follows the source). -/
def mediaItemsInsert (value : PyVal) (props : List (String × PropVal)) :
    List (String × PropVal) :=
  match value with
  | .list l =>
    dictInsert "items" (PropVal.v (.list l))
      (dictInsert "item_count" (PropVal.v (.int (l.length : Int))) props)
  | _ => dictInsert "items" (PropVal.v (.str "<dynamic>")) props

def mediaPropStep (props : List (String × PropVal)) (kw : Option String × PExpr) :
    List (String × PropVal) :=
  match kw.1 with
  | some arg_name =>
    if arg_name == "items" then
      match _evaluate_value kw.2 with
      | some value => mediaItemsInsert value props
      | none => props
    else props
  | none => props

/-- The property dict of a media-gallery component: keyword fold plus the
positional items fallback. -/
def mediaGalleryProperties (args : List PExpr) (kws : List (Option String × PExpr)) :
    List (String × PropVal) :=
  let properties := kws.foldl mediaPropStep []
  match args with
  | a :: _ =>
    if (dictGet "items" properties).isNone then
      match _evaluate_value a with
      | some items_val => mediaItemsInsert items_val properties
      | none => properties
    else properties
  | [] => properties

def _extract_media_gallery_properties (st : Visitor) (nid : Nat) (args : List PExpr)
    (kws : List (Option String × PExpr)) (line : Nat)
    (variable_name : Option String) : Visitor :=
  pushComponent st ⟨"media_gallery", mediaGalleryProperties args kws, line, nid⟩
    variable_name line

def _extract_file_upload_properties (st : Visitor) (nid : Nat)
    (kws : List (Option String × PExpr)) (line : Nat)
    (variable_name : Option String) : Visitor :=
  pushComponent st
    ⟨"file_upload", kws.foldl (plainPropStep ["accept", "multiple"]) [], line, nid⟩
    variable_name line

/-! ## Container / section / row tracking -/

def _track_container (st : Visitor) (variable_name : String)
    (kws : List (Option String × PExpr)) (line : Nat) : Visitor :=
  let label := kws.foldl (fun acc kw =>
    match kw.1 with
    | some a => if a == "label" then _evaluate_value kw.2 else acc
    | none => acc) none
  { st with hierarchy_tracking :=
      dictInsert variable_name (HNode.container label line) st.hierarchy_tracking }

def _track_section (st : Visitor) (variable_name : String)
    (kws : List (Option String × PExpr)) (line : Nat) : Visitor :=
  let label := kws.foldl (fun acc kw =>
    match kw.1 with
    | some a => if a == "label" then _evaluate_value kw.2 else acc
    | none => acc) none
  { st with hierarchy_tracking :=
      dictInsert variable_name (HNode.section label line) st.hierarchy_tracking }

/-- `_track_action_row`: the row number defaults to 0 and is taken from an
integer-valued `row` keyword.  (The Python `isinstance(x, int)` corner where
a bool passes as an int is not modelled.) -/
def _track_action_row (st : Visitor) (variable_name : String)
    (kws : List (Option String × PExpr)) (line : Nat) : Visitor :=
  let row_number := kws.foldl (fun acc kw =>
    match kw.1 with
    | some a =>
      if a == "row" then
        match _evaluate_value kw.2 with
        | some (.int n) => n
        | _ => acc
      else acc
    | none => acc) 0
  { st with hierarchy_tracking :=
      dictInsert variable_name (HNode.actionrow row_number line) st.hierarchy_tracking }

/-! ## Hierarchy relationship tracking and tree building -/

/-- `_track_hierarchy_call`: the parent is the bound receiver name; the
child is the bound argument name, or for an inline call a synthetic
`_inline_<id>` key which is mapped to the most recently extracted component
of the current class (when one exists). -/
def _track_hierarchy_call (st : Visitor) (line : Nat) (func : PExpr)
    (args : List PExpr) (method_name : String) : Visitor :=
  let parent_var : Option String :=
    match func with
    | .attr (.name p) _ => some p
    | _ => none
  let (child_var, st1) :=
    match args with
    | [] => (none, st)
    | arg :: _ =>
      match arg with
      | .name n => (some n, st)
      | .call anid aln _ _ _ =>
        let key := "_inline_" ++ toString anid
        match st.class_components.getLast? with
        | some last_component =>
          let stTracked :=
            { st with hierarchy_tracking :=
                dictInsert key (HNode.item last_component aln) st.hierarchy_tracking }
          (some key, stTracked)
        | none => (some key, st)
      | _ => (none, st)
  if truthyS parent_var && truthyS child_var then
    { st1 with hierarchy_relationships := st1.hierarchy_relationships ++
        [⟨parent_var.getD "", child_var.getD "", method_name, line⟩] }
  else st1

/-- The parent-to-children map built at the start of `_build_hierarchy`. -/
def buildParentMap (rels : List HRel) : List (String × List String) :=
  rels.foldl (fun m rel =>
    match dictGet rel.parent m with
    | some children => dictInsert rel.parent (children ++ [rel.child]) m
    | none => dictInsert rel.parent [rel.child] m) []

def hnodeIsGroup : Option HNode → Bool
  | some (.container _ _) => true
  | some (.section _ _) => true
  | some (.actionrow _ _) => true
  | _ => false

/-- `_build_node_tree` with an explicit recursion budget; the source
recurses unboundedly (and would not terminate on a cyclic parent map, which
makes the interpreter raise instead). -/
def _build_node_tree (tracking : List (String × HNode))
    (parent_map : List (String × List String)) : Nat → String → TreeNode
  | 0, var_name => .node (dictGet var_name tracking) none
  | fuel + 1, var_name =>
    let node_data := dictGet var_name tracking
    let children :=
      match dictGet var_name parent_map with
      | some cs =>
        (cs.filter (fun c => (dictGet c tracking).isSome)).map
          (_build_node_tree tracking parent_map fuel)
      | none => []
    if children.isEmpty then
      if hnodeIsGroup node_data then .node node_data (some []) else .node node_data none
    else .node node_data (some children)

/-- `_build_hierarchy`: roots are the edges whose parent is `self` and whose
child is tracked. -/
def _build_hierarchy (st : Visitor) : List TreeNode :=
  if st.hierarchy_relationships.isEmpty then []
  else
    let parent_map := buildParentMap st.hierarchy_relationships
    (st.hierarchy_relationships.filter (fun rel =>
        rel.parent == "self" && (dictGet rel.child st.hierarchy_tracking).isSome)).map
      (fun rel =>
        _build_node_tree st.hierarchy_tracking parent_map
          (st.hierarchy_tracking.length + 1) rel.child)

/-! ## Dispatch chains -/

/-- The elif chain of `visit_Assign` classifying an assigned call value. -/
def assignDispatch (st : Visitor) (nid line : Nat) (func : PExpr) (args : List PExpr)
    (kws : List (Option String × PExpr)) (variable_name : String) : Visitor :=
  if _is_button_call func then
    _extract_button_properties st nid kws line none (some variable_name)
  else if _is_select_menu_call func then
    _extract_select_menu_properties st nid kws line none (some variable_name)
  else if _is_text_input_call func then
    _extract_text_input_properties st nid kws line none (some variable_name)
  else if _is_container_call func then _track_container st variable_name kws line
  else if _is_section_call func then _track_section st variable_name kws line
  else if _is_action_row_call func then _track_action_row st variable_name kws line
  else if _is_text_display_call func then
    _extract_text_display_properties st nid kws line (some variable_name)
  else if _is_label_call func then
    _extract_label_properties st nid kws line (some variable_name)
  else if _is_separator_call func then
    _extract_separator_properties st nid kws line (some variable_name)
  else if _is_thumbnail_call func then
    _extract_thumbnail_properties st nid kws line (some variable_name)
  else if _is_file_call func then
    _extract_file_properties st nid args kws line (some variable_name)
  else if _is_media_gallery_call func then
    _extract_media_gallery_properties st nid args kws line (some variable_name)
  else if _is_file_upload_call func then
    _extract_file_upload_properties st nid kws line (some variable_name)
  else st

/-- The body of the target loop of `visit_Assign` for one target: a name
target records the binding and, when the value is a not-yet-processed call,
marks it processed and classifies it. -/
def assignTargetStep (st : Visitor) (value : PExpr) (lineno : Nat)
    (target : PTarget) : Visitor :=
  match target with
  | .tname variable_name =>
    let st := { st with variables' := dictInsert variable_name value st.variables' }
    match value with
    | .call nid _ func args kws =>
      if st.processed_nodes.contains nid then st
      else
        assignDispatch { st with processed_nodes := st.processed_nodes ++ [nid] }
          nid lineno func args kws variable_name
    | _ => st
  | .tother => st

/-- The target loop of `visit_Assign` (its `generic_visit` tail is performed
by the traversal). -/
def visit_Assign_targets (st : Visitor) (targets : List PTarget) (value : PExpr)
    (lineno : Nat) : Visitor :=
  targets.foldl (fun s t => assignTargetStep s value lineno t) st

/-- The body of `visit_AnnAssign`.  Note that the source passes
`variable_name` as the third positional argument of the extractors, which is
the `callback` slot, so an annotated assignment records the variable name as
a callback and tracks no hierarchy variable. -/
def visit_AnnAssign_target (st : Visitor) (target : PTarget) (value : Option PExpr)
    (lineno : Nat) : Visitor :=
  match target, value with
  | .tname variable_name, some (.call nid _ func args kws) =>
    if st.processed_nodes.contains nid then st
    else
      let st1 := { st with processed_nodes := st.processed_nodes ++ [nid] }
      if _is_button_call func then
        _extract_button_properties st1 nid kws lineno (some variable_name) none
      else if _is_select_menu_call func then
        _extract_select_menu_properties st1 nid kws lineno (some variable_name) none
      else if _is_text_input_call func then
        _extract_text_input_properties st1 nid kws lineno (some variable_name) none
      else st1
  | _, _ => st

/-- The elif chain of `_extract_add_item_component` classifying the first
argument of an `add_item` call (no container / section / row branches
here). -/
def addItemDispatch (st : Visitor) (anid line : Nat) (func : PExpr)
    (args : List PExpr) (kws : List (Option String × PExpr))
    (variable_name : Option String) : Visitor :=
  if _is_button_call func then
    _extract_button_properties st anid kws line none variable_name
  else if _is_select_menu_call func then
    _extract_select_menu_properties st anid kws line none variable_name
  else if _is_text_input_call func then
    _extract_text_input_properties st anid kws line none variable_name
  else if _is_text_display_call func then
    _extract_text_display_properties st anid kws line variable_name
  else if _is_label_call func then
    _extract_label_properties st anid kws line variable_name
  else if _is_separator_call func then
    _extract_separator_properties st anid kws line variable_name
  else if _is_thumbnail_call func then
    _extract_thumbnail_properties st anid kws line variable_name
  else if _is_file_call func then
    _extract_file_properties st anid args kws line variable_name
  else if _is_media_gallery_call func then
    _extract_media_gallery_properties st anid args kws line variable_name
  else if _is_file_upload_call func then
    _extract_file_upload_properties st anid kws line variable_name
  else st

/-- `_extract_add_item_component`: extract the component from the first
argument of an `add_item` style call when it is a not-yet-processed call
expression (a bare-name argument extracts nothing here; the line passed to
the extractors is the line of the outer call).  The source also returns the
extracted record, which its only caller ignores. -/
def _extract_add_item_component (st : Visitor) (line : Nat)
    (args : List PExpr) : Visitor :=
  match args with
  | [] => st
  | arg :: _ =>
    match arg with
    | .call anid _ func aargs akws =>
      if st.processed_nodes.contains anid then st
      else
        addItemDispatch { st with processed_nodes := st.processed_nodes ++ [anid] }
          anid line func aargs akws none
    | _ => st

/-- The body of `visit_Call` (its `generic_visit` tail is performed by the
traversal). -/
def visit_Call_step (st : Visitor) (nid lineno : Nat) (func : PExpr)
    (args : List PExpr) (kws : List (Option String × PExpr)) : Visitor :=
  if st.in_init_method && _is_add_item_call func then
    _track_hierarchy_call (_extract_add_item_component st lineno args)
      lineno func args "add_item"
  else if st.in_init_method && _is_hierarchy_method func "add_section" then
    _track_hierarchy_call st lineno func args "add_section"
  else if st.in_init_method && _is_hierarchy_method func "add_row" then
    _track_hierarchy_call st lineno func args "add_row"
  else if st.in_init_method && _is_hierarchy_method func "append_item" then
    _track_hierarchy_call st lineno func args "append_item"
  else st

/-- The decorator loop shared by `visit_FunctionDef` and
`visit_AsyncFunctionDef`: a decorator that is a call and matches the button
or select decorator shape is extracted with the function name as its
callback. -/
def decoStep (st : Visitor) (callback_name : String) (d : PExpr) : Visitor :=
  match d with
  | .call nid lineno func _ kws =>
    if _is_button_decorator func then
      _extract_button_properties st nid kws lineno (some callback_name) none
    else if _is_select_decorator func then
      _extract_select_menu_properties st nid kws lineno (some callback_name) none
    else st
  | _ => st

def visit_FunctionDef_decorators (st : Visitor) (callback_name : String)
    (decorators : List PExpr) : Visitor :=
  decorators.foldl (fun s d => decoStep s callback_name d) st

/-! ## Traversal

The `ast.NodeVisitor` recursion is modelled as an explicit work list.  Each
task is either a statement, an expression (with a bookkeeping flag, see
below), or one of two control markers that restore saved context when the
body of a class or function definition has been fully traversed.  A fuel
parameter makes the recursion structural; it stands for the interpreter
recursion limit and every theorem quantifies over it.

The `credited` flag on expression tasks has no semantic effect: it only
tells the parallel `taskIds` accounting function that the identity of the
top call node of this expression has already been counted at the step that
enqueued it (an assignment value, a first call argument, or a decorator is
revisited by `generic_visit` after the enclosing construct already handled
it).  With the flag, `taskIds` lists the identity of every call node of a
syntax tree exactly once. -/

inductive Task where
  | stmt (s : PStmt)
  | expr (credited : Bool) (e : PExpr)
  | classPost
  | funcPost

/-- The pure work-list expansion of one task: the child tasks that
`generic_visit` (plus the class/function body handling) enqueues. -/
def expandTask : Task → List Task
  | .stmt (.assign _ value _) => [.expr true value]
  | .stmt (.annAssign _ (some v) _) => [.expr true v]
  | .stmt (.annAssign _ none _) => []
  | .stmt (.exprStmt e) => [.expr false e]
  | .stmt (.funcDef _ decorators body _) =>
    body.map .stmt ++ decorators.map (.expr true) ++ [.funcPost]
  | .stmt (.classDef _ bases body _) =>
    match classTypeOf bases with
    | some _ => bases.map (.expr false) ++ body.map .stmt ++ [.classPost]
    | none => bases.map (.expr false) ++ body.map .stmt
  | .classPost => []
  | .funcPost => []
  | .expr _ e =>
    match e with
    | .call _ _ func args kws =>
      .expr false func ::
        ((match args with
          | [] => []
          | a :: restArgs => .expr true a :: restArgs.map (.expr false)) ++
         kws.map (fun kw => .expr false kw.2))
    | .attr v _ => [.expr false v]
    | .ifExp c t f => [.expr false c, .expr false t, .expr false f]
    | .listE elts => elts.map (.expr false)
    | .listComp elt => [.expr false elt]
    | .const _ => []
    | .name _ => []
    | .dyn => []

/-- The state transition performed when one task is taken off the work
list, before its expansion is enqueued. -/
def headStep (st : Visitor) (t : Task) : Visitor :=
  match t with
  | .stmt (.assign targets value lineno) => visit_Assign_targets st targets value lineno
  | .stmt (.annAssign target value lineno) => visit_AnnAssign_target st target value lineno
  | .stmt (.exprStmt _) => st
  | .stmt (.funcDef nm decorators _ _) =>
    let st1 := visit_FunctionDef_decorators st nm decorators
    { st1 with
      in_init_method :=
        if nm == "__init__" && truthyS st1.current_class then true
        else st1.in_init_method,
      init_flag_stack := st1.in_init_method :: st1.init_flag_stack }
  | .stmt (.classDef nm bases _ lineno) =>
    match classTypeOf bases with
    | some (class_type, is_layout) =>
      { st with
        class_ctx_stack :=
          ⟨st.current_class, st.current_class_type, st.current_class_line,
           st.class_components, is_layout⟩ :: st.class_ctx_stack,
        current_class := some nm,
        current_class_type := some class_type,
        current_class_line := some lineno,
        class_components := [] }
    | none => st
  | .classPost =>
    match st.class_ctx_stack with
    | [] => st
    | ctx :: stack =>
      let hierarchy := _build_hierarchy st
      { st with
        views := st.views ++
          [⟨st.current_class, st.current_class_type, st.current_class_line,
            st.class_components, hierarchy, ctx.isLayout, ctx.isLayout⟩],
        hierarchy_tracking := [],
        hierarchy_relationships := [],
        current_class := ctx.prevClass,
        current_class_type := ctx.prevType,
        current_class_line := ctx.prevLine,
        class_components := ctx.prevComps,
        class_ctx_stack := stack }
  | .funcPost =>
    match st.init_flag_stack with
    | [] => st
    | prev :: stack => { st with in_init_method := prev, init_flag_stack := stack }
  | .expr _ e =>
    match e with
    | .call nid lineno func args kws => visit_Call_step st nid lineno func args kws
    | _ => st

/-- The work-list driver: `visitor.visit(tree)` on a module whose body is
the given statement list. -/
def runV : Nat → Visitor → List Task → Visitor
  | 0, st, _ => st
  | _ + 1, st, [] => st
  | fuel + 1, st, t :: rest => runV fuel (headStep st t) (expandTask t ++ rest)

/-- The identities of the decorator call nodes of a function definition. -/
def decoCallTops (decorators : List PExpr) : List Nat :=
  decorators.filterMap (fun d =>
    match d with
    | .call nid _ _ _ _ => some nid
    | _ => none)

/-- The node identities consumed at one step: the identity of a call node is
credited at the step of the construct that both handles it and re-enqueues
it (assignment value, first call argument, decorator), and otherwise at its
own expression step. -/
def headIds : Task → List Nat
  | .stmt (.assign _ value _) =>
    match value with
    | .call nid _ _ _ _ => [nid]
    | _ => []
  | .stmt (.annAssign _ (some (.call nid _ _ _ _)) _) => [nid]
  | .stmt (.funcDef _ decorators _ _) => decoCallTops decorators
  | .expr credited (.call nid _ _ args _) =>
    (if credited then [] else [nid]) ++
      (match args with
       | .call anid _ _ _ _ :: _ => [anid]
       | _ => [])
  | _ => []

/-- All call-node identities of a work list, each listed exactly once for a
well-formed syntax tree, in traversal order. -/
def taskIds : Nat → List Task → List Nat
  | 0, _ => []
  | _ + 1, [] => []
  | fuel + 1, t :: rest => headIds t ++ taskIds fuel (expandTask t ++ rest)

def stmtTasks (prog : List PStmt) : List Task := prog.map Task.stmt

def runVisitor (fuel : Nat) (prog : List PStmt) : Visitor :=
  runV fuel initVisitor (stmtTasks prog)

/-! ## Dictionary lemmas -/

theorem dictGet_insert {α : Type} (k k' : String) (v : α) (l : List (String × α)) :
    dictGet k' (dictInsert k v l) = if k' = k then some v else dictGet k' l := by
  induction l with
  | nil =>
    by_cases hk : k' = k
    · simp [dictInsert, dictGet, hk]
    · simp [dictInsert, dictGet, hk, Ne.symm hk]
  | cons p t ih =>
    by_cases hp : p.1 = k
    · by_cases hk : k' = k
      · simp [dictInsert, dictGet, hp, hk]
      · simp [dictInsert, dictGet, hp, hk, Ne.symm hk]
    · by_cases hk : k' = k
      · subst hk
        simp [dictInsert, dictGet, hp, ih]
      · simp [dictInsert, dictGet, hp, hk, ih]

theorem dictGet_insert_self {α : Type} (k : String) (v : α) (l : List (String × α)) :
    dictGet k (dictInsert k v l) = some v := by
  simp [dictGet_insert]

/-- Every entry of `dictInsert k v l` is the new binding or an entry of
`l`. -/
theorem mem_dictInsert {α : Type} (k : String) (v : α) (l : List (String × α))
    (x : String × α) (hx : x ∈ dictInsert k v l) : x = (k, v) ∨ x ∈ l := by
  induction l with
  | nil =>
    simp [dictInsert] at hx
    exact Or.inl hx
  | cons p t ih =>
    by_cases hp : p.1 = k <;> simp [dictInsert, hp] at hx
    · rcases hx with hx | hx
      · exact Or.inl hx
      · exact Or.inr (List.mem_cons_of_mem p hx)
    · rcases hx with hx | hx
      · exact Or.inr (by simp [hx])
      · rcases ih hx with h | h
        · exact Or.inl h
        · exact Or.inr (List.mem_cons_of_mem p h)

/-! ## Cache theorems (claims C4 and C10) -/

/-- C4.  A call to `get` returns a stored result exactly when an entry for
the file identity exists whose content hash equals the hash of the supplied
content and whose age `now - timestamp` is at most the TTL; a hash mismatch
or an expired entry is evicted and counted as a miss; `set` stores or
overwrites unconditionally with a fresh timestamp; the constructor default
TTL is 30 seconds. -/
theorem cache_get_set_spec {α : Type} (h : String → String) (now : Int)
    (c : ParseCache α) (fp content : String) :
    (∀ r : α, (ParseCache.get h now c fp content).1 = some r ↔
      ∃ e, dictGet fp c.cache = some e ∧ e.content_hash = h content ∧
        now - e.timestamp ≤ c.max_age ∧ r = e.result) ∧
    (∀ e, dictGet fp c.cache = some e → e.content_hash ≠ h content →
      (ParseCache.get h now c fp content).1 = none ∧
      (ParseCache.get h now c fp content).2.cache = dictPop fp c.cache ∧
      (ParseCache.get h now c fp content).2.misses = c.misses + 1) ∧
    (∀ e, dictGet fp c.cache = some e → now - e.timestamp > c.max_age →
      (ParseCache.get h now c fp content).1 = none ∧
      (ParseCache.get h now c fp content).2.cache = dictPop fp c.cache ∧
      (ParseCache.get h now c fp content).2.misses = c.misses + 1) ∧
    (∀ r : α, dictGet fp (ParseCache.set h now c fp content r).cache =
      some ⟨h content, r, now⟩) ∧
    (ParseCache.init α 30).max_age = 30 := by
  refine ⟨?_, ?_, ?_, ?_, rfl⟩
  · intro r
    cases hget : dictGet fp c.cache with
    | none => simp [ParseCache.get, hget]
    | some entry =>
      by_cases hhash : entry.content_hash = h content
      · by_cases hage : now - entry.timestamp > c.max_age
        · simp only [ParseCache.get, hget]
          rw [if_neg (by simp [hhash]), if_pos hage]
          simp only [hget]
          constructor
          · intro hcontra
            simp at hcontra
          · rintro ⟨e, he, -, hle, -⟩
            rw [Option.some.injEq] at he
            subst he
            omega
        · simp only [ParseCache.get, hget]
          rw [if_neg (by simp [hhash]), if_neg hage]
          simp only [hget]
          constructor
          · intro hr
            rw [Option.some.injEq] at hr
            exact ⟨entry, rfl, hhash, by omega, hr.symm⟩
          · rintro ⟨e, he, -, -, hr⟩
            rw [Option.some.injEq] at he
            subst he
            simp [hr]
      · simp only [ParseCache.get, hget]
        rw [if_pos (by simpa using hhash)]
        simp only [hget]
        constructor
        · intro hcontra
          simp at hcontra
        · rintro ⟨e, he, hh, -⟩
          rw [Option.some.injEq] at he
          subst he
          exact absurd hh hhash
  · intro e he hne
    simp only [ParseCache.get, he]
    rw [if_pos (by simpa using hne)]
    exact ⟨rfl, rfl, rfl⟩
  · intro e he hage
    by_cases hne : e.content_hash = h content
    · simp only [ParseCache.get, he]
      rw [if_neg (by simp [hne]), if_pos hage]
      exact ⟨rfl, rfl, rfl⟩
    · simp only [ParseCache.get, he]
      rw [if_pos (by simpa using hne)]
      exact ⟨rfl, rfl, rfl⟩
  · intro r
    simp [ParseCache.set, dictGet_insert_self]

/-- Witness for C4 at a concrete cache state: the identity hash, an entry
whose hash matches and whose age is within the TTL is a hit, and a
mismatching entry is evicted. -/
theorem cache_get_set_spec_witness :
    ((ParseCache.get id 40 (⟨[("f", ⟨"src", 7, 20⟩)], 30, 0, 0⟩ : ParseCache Nat)
        "f" "src").1 = some 7) ∧
    ((ParseCache.get id 40 (⟨[("f", ⟨"old", 7, 20⟩)], 30, 0, 0⟩ : ParseCache Nat)
        "f" "src").1 = none ∧
      (ParseCache.get id 40 (⟨[("f", ⟨"old", 7, 20⟩)], 30, 0, 0⟩ : ParseCache Nat)
        "f" "src").2.cache = dictPop "f" [("f", ⟨"old", 7, 20⟩)] ∧
      (ParseCache.get id 40 (⟨[("f", ⟨"old", 7, 20⟩)], 30, 0, 0⟩ : ParseCache Nat)
        "f" "src").2.misses = 0 + 1) := by
  constructor
  · exact ((cache_get_set_spec id 40 ⟨[("f", ⟨"src", 7, 20⟩)], 30, 0, 0⟩ "f" "src").1 7).2
      ⟨⟨"src", 7, 20⟩, by decide, rfl, by decide, rfl⟩
  · exact (cache_get_set_spec id 40 ⟨[("f", ⟨"old", 7, 20⟩)], 30, 0, 0⟩ "f" "src").2.1
      ⟨"old", 7, 20⟩ (by decide) (by decide)

/-- C10.  Every `get` increments exactly one of the hit and miss counters
(so their sum grows by one per `get` call), `set` and `invalidate` leave the
counters unchanged, construction and `clear` zero them, `get_stats` reports
hit rate 0 when no `get` call has occurred (no division by zero), and the
reported entry count is the number of entries currently stored. -/
theorem cache_counters_spec {α : Type} (h : String → String) (now : Int)
    (c : ParseCache α) (fp content : String) (r : α) (m : Int) :
    (((ParseCache.get h now c fp content).2.hits = c.hits + 1 ∧
      (ParseCache.get h now c fp content).2.misses = c.misses) ∨
     ((ParseCache.get h now c fp content).2.hits = c.hits ∧
      (ParseCache.get h now c fp content).2.misses = c.misses + 1)) ∧
    ((ParseCache.get h now c fp content).2.hits +
      (ParseCache.get h now c fp content).2.misses = c.hits + c.misses + 1) ∧
    ((ParseCache.set h now c fp content r).hits = c.hits ∧
     (ParseCache.set h now c fp content r).misses = c.misses) ∧
    ((ParseCache.invalidate c fp).hits = c.hits ∧
     (ParseCache.invalidate c fp).misses = c.misses) ∧
    ((ParseCache.init α m).hits = 0 ∧ (ParseCache.init α m).misses = 0) ∧
    ((ParseCache.clear c).hits = 0 ∧ (ParseCache.clear c).misses = 0) ∧
    (c.hits + c.misses = 0 → (ParseCache.get_stats c).hit_rate_percent = 0) ∧
    (ParseCache.get_stats c).cached_files = c.cache.length := by
  have hstep :
      ((ParseCache.get h now c fp content).2.hits = c.hits + 1 ∧
        (ParseCache.get h now c fp content).2.misses = c.misses) ∨
      ((ParseCache.get h now c fp content).2.hits = c.hits ∧
        (ParseCache.get h now c fp content).2.misses = c.misses + 1) := by
    cases hget : dictGet fp c.cache with
    | none =>
      right
      simp [ParseCache.get, hget]
    | some entry =>
      by_cases hhash : entry.content_hash = h content
      · by_cases hage : now - entry.timestamp > c.max_age
        · right
          simp only [ParseCache.get, hget]
          rw [if_neg (by simp [hhash]), if_pos hage]
          exact ⟨rfl, rfl⟩
        · left
          simp only [ParseCache.get, hget]
          rw [if_neg (by simp [hhash]), if_neg hage]
          exact ⟨rfl, rfl⟩
      · right
        simp only [ParseCache.get, hget]
        rw [if_pos (by simpa using hhash)]
        exact ⟨rfl, rfl⟩
  refine ⟨hstep, ?_, ⟨rfl, rfl⟩, ⟨rfl, rfl⟩, ⟨rfl, rfl⟩, ⟨rfl, rfl⟩, ?_, rfl⟩
  · rcases hstep with ⟨h1, h2⟩ | ⟨h1, h2⟩ <;> omega
  · intro hzero
    have h1 : c.hits = 0 := by omega
    have h2 : c.misses = 0 := by omega
    simp [ParseCache.get_stats, h1, h2, pyRound2]

/-- Witness for C10 at a concrete cache state, including the zero-request
hit rate. -/
theorem cache_counters_spec_witness :
    ((((ParseCache.get id 40 (ParseCache.init Nat 30) "f" "src").2.hits = 0 + 1 ∧
       (ParseCache.get id 40 (ParseCache.init Nat 30) "f" "src").2.misses = 0) ∨
      ((ParseCache.get id 40 (ParseCache.init Nat 30) "f" "src").2.hits = 0 ∧
       (ParseCache.get id 40 (ParseCache.init Nat 30) "f" "src").2.misses = 0 + 1)) ∧
     (ParseCache.get_stats (ParseCache.init Nat 30)).hit_rate_percent = 0) := by
  refine ⟨?_, ?_⟩
  · exact (cache_counters_spec id 40 (ParseCache.init Nat 30) "f" "src" 0 30).1
  · exact (cache_counters_spec id 40 (ParseCache.init Nat 30) "f" "src" 0 30).2.2.2.2.2.2.1
      (by decide)

/-! ## String lemmas -/

theorem listStarts_mem (p : List Char) : ∀ t, listStarts p t = true → ∀ c ∈ p, c ∈ t := by
  induction p with
  | nil =>
    intro t _ c hc
    simp at hc
  | cons a as ih =>
    intro t hs c hc
    cases t with
    | nil => simp [listStarts] at hs
    | cons b bs =>
      simp only [listStarts, Bool.and_eq_true, beq_iff_eq] at hs
      rcases List.mem_cons.1 hc with hca | hca
      · subst hca
        simp [hs.1]
      · exact List.mem_cons_of_mem b (ih bs hs.2 c hca)

theorem listHasSub_mem (p : List Char) : ∀ t, listHasSub p t = true → ∀ c ∈ p, c ∈ t := by
  intro t
  induction t with
  | nil =>
    intro hs c hc
    simp only [listHasSub, Bool.or_eq_true] at hs
    rcases hs with hs | hs
    · exact listStarts_mem p [] hs c hc
    · simp at hs
  | cons b bs ih =>
    intro hs c hc
    simp only [listHasSub, Bool.or_eq_true] at hs
    rcases hs with hs | hs
    · exact listStarts_mem p (b :: bs) hs c hc
    · exact List.mem_cons_of_mem b (ih hs c hc)

theorem splitDot_no_dot (l : List Char) (h : '.' ∉ l) : splitDot l = [l] := by
  induction l with
  | nil => rfl
  | cons c cs ih =>
    have hc : ¬ c = '.' := fun hcc => h (by simp [hcc])
    have hcs : '.' ∉ cs := fun hmem => h (List.mem_cons_of_mem c hmem)
    simp only [splitDot]
    rw [if_neg (by simpa using hc), ih hcs]

theorem mem_listHasSub_singleton (c : Char) (t : List Char) (h : c ∈ t) :
    listHasSub [c] t = true := by
  induction t with
  | nil => simp at h
  | cons b bs ih =>
    rcases List.mem_cons.1 h with hb | hb
    · subst hb
      simp [listHasSub, listStarts]
    · simp only [listHasSub, Bool.or_eq_true]
      exact Or.inr (ih hb)

/-- A string with a false dot substring test has no dot character. -/
theorem no_dot_of_pyIn_false (s : String) (hdot : pyIn "." s = false) :
    ('.' : Char) ∉ s.data := by
  intro hmem
  have h2 : listHasSub ['.'] s.data = true := mem_listHasSub_singleton '.' s.data hmem
  have h3 : listHasSub ['.'] s.data = false := hdot
  rw [h2] at h3
  exact absurd h3 (by simp)

/-! ## Button style normalization (claim C3) -/

def button_style_enum : List String :=
  ["primary", "secondary", "success", "danger", "link"]

/-- The bare alias tokens accepted by the fallback branch of
`_normalize_button_style`. -/
def button_style_aliases : List String :=
  ["primary", "secondary", "success", "danger", "link",
   "green", "red", "grey", "gray", "blurple"]

/-- Range lemma: button style normalization always lands in the closed
five-value enum. -/
theorem normalize_button_style_mem (s : String) :
    _normalize_button_style s ∈ button_style_enum := by
  unfold _normalize_button_style
  cases hfind : style_map.find? (fun p => pyIn p.1 s) with
  | some p =>
    have hp := List.mem_of_find?_eq_some hfind
    simp only [style_map, List.mem_cons, List.not_mem_nil, or_false] at hp
    rcases hp with h | h | h | h | h | h | h | h | h | h <;> subst h <;>
      simp [button_style_enum]
  | none =>
    simp only
    split_ifs with h1 h2 h3 h4 h5
    · have h1m := List.mem_of_elem_eq_true h1
      simp only [List.mem_cons, List.not_mem_nil, or_false] at h1m
      rcases h1m with h | h | h | h | h <;> simp [h, button_style_enum]
    · simp [button_style_enum]
    · simp [button_style_enum]
    · simp [button_style_enum]
    · simp [button_style_enum]
    · simp [button_style_enum]

/-- If the style string contains no dot, no `style_map` pattern (each of
which contains a dot) can be a substring of it. -/
theorem style_map_find_none (s : String) (hdot : pyIn "." s = false) :
    style_map.find? (fun p => pyIn p.1 s) = none := by
  have hdotmem := no_dot_of_pyIn_false s hdot
  apply List.find?_eq_none.2
  intro p hp
  simp only [style_map, List.mem_cons, List.not_mem_nil, or_false] at hp
  intro hcontra
  have hin : listHasSub p.1.data s.data = true := hcontra
  have hdotp : ('.' : Char) ∈ p.1.data := by
    rcases hp with h | h | h | h | h | h | h | h | h | h <;> subst h <;> decide
  exact hdotmem (listHasSub_mem p.1.data s.data hin '.' hdotp)

/-- C3, corrected.  Conjuncts: (1) normalization is total into the closed
enum; (2) the alias table holds exactly for bare tokens and for qualified
`ButtonStyle.*` references whose token is exactly an alias; (3) a dot-free
token outside the alias set maps to `secondary`.  (The uncorrected universal
fallback fails for qualified references, because the qualified match is a
substring test: see the counterexample theorem.) -/
theorem button_style_normalization_spec (s : String) :
    _normalize_button_style s ∈ button_style_enum ∧
    (_normalize_button_style "primary" = "primary" ∧
     _normalize_button_style "blurple" = "primary" ∧
     _normalize_button_style "secondary" = "secondary" ∧
     _normalize_button_style "grey" = "secondary" ∧
     _normalize_button_style "gray" = "secondary" ∧
     _normalize_button_style "success" = "success" ∧
     _normalize_button_style "green" = "success" ∧
     _normalize_button_style "danger" = "danger" ∧
     _normalize_button_style "red" = "danger" ∧
     _normalize_button_style "link" = "link" ∧
     _normalize_button_style "ButtonStyle.primary" = "primary" ∧
     _normalize_button_style "ButtonStyle.blurple" = "primary" ∧
     _normalize_button_style "ButtonStyle.secondary" = "secondary" ∧
     _normalize_button_style "ButtonStyle.grey" = "secondary" ∧
     _normalize_button_style "ButtonStyle.gray" = "secondary" ∧
     _normalize_button_style "ButtonStyle.success" = "success" ∧
     _normalize_button_style "ButtonStyle.green" = "success" ∧
     _normalize_button_style "ButtonStyle.danger" = "danger" ∧
     _normalize_button_style "ButtonStyle.red" = "danger" ∧
     _normalize_button_style "ButtonStyle.link" = "link" ∧
     _normalize_button_style "discord.ButtonStyle.blurple" = "primary" ∧
     _normalize_button_style "discord.ButtonStyle.secondary" = "secondary") ∧
    (pyIn "." s = false → pyLower s ∉ button_style_aliases →
      _normalize_button_style s = "secondary") := by
  refine ⟨normalize_button_style_mem s, by decide, ?_⟩
  intro hdot halias
  unfold _normalize_button_style
  rw [style_map_find_none s hdot]
  simp only
  have hsplit : pySplitDotLast s = s := by
    unfold pySplitDotLast
    rw [splitDot_no_dot s.data (no_dot_of_pyIn_false s hdot)]
    rfl
  rw [hsplit]
  simp only [button_style_aliases, List.mem_cons, List.not_mem_nil, or_false] at halias
  push_neg at halias
  obtain ⟨n1, n2, n3, n4, n5, n6, n7, n8, n9, n10⟩ := halias
  split_ifs with g1 g2 g3 g4 g5
  · exfalso
    have g1m := List.mem_of_elem_eq_true g1
    simp only [List.mem_cons, List.not_mem_nil, or_false] at g1m
    rcases g1m with h | h | h | h | h
    · exact n1 h
    · exact n2 h
    · exact n3 h
    · exact n4 h
    · exact n5 h
  · exact absurd (by simpa using g2) n6
  · exact absurd (by simpa using g3) n7
  · exfalso
    have g4m := List.mem_of_elem_eq_true g4
    simp only [List.mem_cons, List.not_mem_nil, or_false] at g4m
    rcases g4m with h | h
    · exact n8 h
    · exact n9 h
  · exact absurd (by simpa using g5) n10
  · rfl

/-- Witness for C3 (amended): the fallback-to-secondary conjunct at the
concrete unknown token `mystery`. -/
theorem button_style_normalization_spec_witness :
    pyIn "." "mystery" = false ∧ pyLower "mystery" ∉ button_style_aliases ∧
    _normalize_button_style "mystery" = "secondary" :=
  ⟨by decide, by decide,
    (button_style_normalization_spec "mystery").2.2 (by decide) (by decide)⟩

/-- Counterexample for C3 as stated: `ButtonStyle.greenish` is a qualified
reference whose token `greenish` is outside the alias set, so the claim maps
it to `secondary`; the substring match of the source maps it to `success`. -/
theorem button_style_claim_counterexample :
    _normalize_button_style "ButtonStyle.greenish" = "success" ∧
    ("success" : String) ≠ "secondary" := by
  constructor
  · rfl
  · decide

/-! ## Option resolution of conditionals (claim C2) -/

/-- The option resolver never produces an empty list: every branch that
returns `some` returns a non-empty list. -/
theorem extract_select_options_ne_nil (vars : List (String × PExpr)) :
    ∀ (fuel : Nat) (e : PExpr) (l : List (List (String × PyVal))),
      _extract_select_options vars fuel e = some l → l ≠ [] := by
  intro fuel e l h
  cases fuel with
  | zero => simp [_extract_select_options] at h
  | succ n =>
    unfold _extract_select_options at h
    split at h
    · -- ternary branch
      dsimp only at h
      split_ifs at h with h1 h2
      · rw [h] at h1
        simp only [optTruthy, Bool.not_eq_true] at h1
        intro hnil
        subst hnil
        simp at h1
      · rw [h] at h2
        simp only [optTruthy, Bool.not_eq_true] at h2
        intro hnil
        subst hnil
        simp at h2
    · -- list comprehension branch
      split at h
      · split at h
        · split at h
          · rw [Option.some.injEq] at h
            subst h
            simp
          · simp at h
        · simp at h
      · simp at h
    · -- list literal branch
      dsimp only at h
      split at h
      · simp at h
      · rename_i hopts
        rw [Option.some.injEq] at h
        subst h
        intro hnil
        rw [hnil] at hopts
        simp at hopts
    · simp at h

/-- C2.  For a conditional options expression, at every recursion level: if
the true branch resolves to an option list (always non-empty when produced,
see `extract_select_options_ne_nil`), the resolver returns exactly the true
branch result regardless of the false branch; if the true branch resolves to
nothing and the false branch resolves to an option list, the resolver
returns the false branch result. -/
theorem select_options_conditional_spec (vars : List (String × PExpr)) (fuel : Nat)
    (c t f : PExpr) (lt lf : List (List (String × PyVal))) :
    (_extract_select_options vars fuel t = some lt →
     _extract_select_options vars fuel f = some lf →
     _extract_select_options vars (fuel + 1) (.ifExp c t f) = some lt) ∧
    (_extract_select_options vars fuel t = none →
     _extract_select_options vars fuel f = some lf →
     _extract_select_options vars (fuel + 1) (.ifExp c t f) = some lf) := by
  have hlf : _extract_select_options vars fuel f = some lf → lf ≠ [] :=
    extract_select_options_ne_nil vars fuel f lf
  have hlt : _extract_select_options vars fuel t = some lt → lt ≠ [] :=
    extract_select_options_ne_nil vars fuel t lt
  constructor
  · intro ht hf
    have hne := hlt ht
    unfold _extract_select_options
    rw [show resolveVar vars (.ifExp c t f) = .ifExp c t f from rfl]
    dsimp only
    rw [ht]
    rw [if_pos (by simp [optTruthy, List.isEmpty_iff, hne])]
  · intro ht hf
    have hne := hlf hf
    unfold _extract_select_options
    rw [show resolveVar vars (.ifExp c t f) = .ifExp c t f from rfl]
    dsimp only
    rw [ht, hf]
    rw [if_neg (by simp [optTruthy]), if_pos (by simp [optTruthy, List.isEmpty_iff, hne])]

/-- Witness for C2 at concrete inputs: a ternary with two non-empty literal
branches resolves to the true branch, and a ternary whose true branch is an
empty list literal resolves to the false branch. -/
theorem select_options_conditional_spec_witness :
    (_extract_select_options [] 2
      (.ifExp .dyn
        (.listE [.call 1 1 (.name "SelectOption") [] [(some "label", .const (.sstr "T"))]])
        (.listE [.call 2 1 (.name "SelectOption") [] [(some "label", .const (.sstr "F"))]]))
      = some [[("label", PyVal.str "T")]]) ∧
    (_extract_select_options [] 2
      (.ifExp .dyn (.listE [])
        (.listE [.call 3 1 (.name "SelectOption") [] [(some "label", .const (.sstr "F"))]]))
      = some [[("label", PyVal.str "F")]]) := by
  constructor
  · exact (select_options_conditional_spec [] 1 .dyn
      (.listE [.call 1 1 (.name "SelectOption") [] [(some "label", .const (.sstr "T"))]])
      (.listE [.call 2 1 (.name "SelectOption") [] [(some "label", .const (.sstr "F"))]])
      [[("label", PyVal.str "T")]] [[("label", PyVal.str "F")]]).1 rfl rfl
  · exact (select_options_conditional_spec [] 1 .dyn (.listE [])
      (.listE [.call 3 1 (.name "SelectOption") [] [(some "label", .const (.sstr "F"))]])
      [] [[("label", PyVal.str "F")]]).2 rfl rfl

/-! ## Unevaluable values (claim C6) -/

/-- Field bookkeeping of `pushComponent`: one component is appended and all
non-component state is unchanged. -/
theorem pushComponent_fields (st : Visitor) (data : Component) (vn : Option String)
    (line : Nat) :
    (pushComponent st data vn line).components = st.components ++ [data] ∧
    (pushComponent st data vn line).errors = st.errors ∧
    (pushComponent st data vn line).processed_nodes = st.processed_nodes ∧
    (pushComponent st data vn line).variables' = st.variables' ∧
    (pushComponent st data vn line).in_init_method = st.in_init_method ∧
    (pushComponent st data vn line).current_class = st.current_class := by
  unfold pushComponent
  dsimp only
  split_ifs <;> exact ⟨rfl, rfl, rfl, rfl, rfl, rfl⟩

/-- Statement-side shape predicate: expressions for which the evaluator has
no structural branch (the value cannot be statically determined). -/
def noEvalBranch : PExpr → Bool
  | .const _ => false
  | .attr _ _ => false
  | .name _ => false
  | _ => true

/-- C6, corrected.  An expression without an evaluator branch evaluates to
`None`; extraction leaves the error list unchanged (so no warning is
recorded, contrary to the uncorrected claim) and still appends exactly one
component record, with the unevaluable property omitted by the keyword
fold. -/
theorem evaluate_value_unevaluable_spec (e : PExpr) (st : Visitor) (nid : Nat)
    (kws : List (Option String × PExpr)) (line : Nat)
    (callback variable_name : Option String) :
    (noEvalBranch e = true → _evaluate_value e = none) ∧
    (_extract_button_properties st nid kws line callback variable_name).errors = st.errors ∧
    (_extract_button_properties st nid kws line callback variable_name).components =
      st.components ++ [⟨"button", buttonProperties kws callback, line, nid⟩] ∧
    (∀ props arg_name, _evaluate_value e = none →
      buttonPropStep props (some arg_name, e) = props) := by
  refine ⟨?_, ?_, ?_, ?_⟩
  · intro h
    cases e <;> first | rfl | simp [noEvalBranch] at h
  · unfold _extract_button_properties
    exact (pushComponent_fields st ⟨"button", buttonProperties kws callback, line, nid⟩
      variable_name line).2.1
  · unfold _extract_button_properties
    exact (pushComponent_fields st ⟨"button", buttonProperties kws callback, line, nid⟩
      variable_name line).1
  · intro props arg_name hnone
    unfold buttonPropStep
    simp only [hnone]
    split_ifs <;> rfl

/-- Witness for C6 (amended) at a concrete unevaluable argument (an
f-string-like expression in the `label` slot of a button call). -/
theorem evaluate_value_unevaluable_spec_witness :
    (_evaluate_value .dyn = none) ∧
    (_extract_button_properties initVisitor 5
      [(some "label", .dyn), (some "custom_id", .const (.sstr "ok"))] 9 none none).errors
      = initVisitor.errors ∧
    buttonPropStep [] (some "label", PExpr.dyn) = [] := by
  refine ⟨?_, ?_, ?_⟩
  · exact (evaluate_value_unevaluable_spec .dyn initVisitor 5
      [(some "label", .dyn), (some "custom_id", .const (.sstr "ok"))] 9 none none).1 rfl
  · exact (evaluate_value_unevaluable_spec .dyn initVisitor 5
      [(some "label", .dyn), (some "custom_id", .const (.sstr "ok"))] 9 none none).2.1
  · exact (evaluate_value_unevaluable_spec .dyn initVisitor 5
      [(some "label", .dyn), (some "custom_id", .const (.sstr "ok"))] 9 none none).2.2.2
      [] "label" rfl

/-- Counterexample for C6 as stated: a button whose `label` argument is
unevaluable is extracted with the property omitted and extraction continues,
but the error list stays empty — no warning with the originating line is
recorded (the warning branch of the source is guarded by an exception that
no evaluator operation raises). -/
theorem evaluate_value_warning_counterexample :
    _evaluate_value .dyn = none ∧
    (_extract_button_properties initVisitor 5
      [(some "label", .dyn), (some "custom_id", .const (.sstr "ok"))] 9 none none).errors
      = [] ∧
    (_extract_button_properties initVisitor 5
      [(some "label", .dyn), (some "custom_id", .const (.sstr "ok"))] 9 none none).components
      = [⟨"button", [("custom_id", PropVal.v (.str "ok"))], 9, 5⟩] :=
  ⟨rfl, rfl, rfl⟩

/-! ## Stored style and spacing values (claim C7) -/

theorem normalize_text_input_style_mem (s : String) :
    _normalize_text_input_style s ∈ ["short", "paragraph"] := by
  unfold _normalize_text_input_style
  split_ifs <;> simp

/-- A simple fold-preservation principle for property invariants. -/
theorem foldl_preserve {α β : Type} (P : α → Prop) (f : α → β → α)
    (hstep : ∀ a b, P a → P (f a b)) :
    ∀ (l : List β) (a : α), P a → P (l.foldl f a) := by
  intro l
  induction l with
  | nil => intro a ha; exact ha
  | cons b t ih => intro a ha; exact ih (f a b) (hstep a b ha)

/-- Every string stored under the `style` key belongs to `enum`. -/
def stored_style_ok (enum : List String) (props : List (String × PropVal)) : Prop :=
  ∀ s, dictGet "style" props = some (PropVal.v (.str s)) → s ∈ enum

/-- Every value stored under the `spacing` key is one of the three spacing
constants. -/
def stored_spacing_ok (props : List (String × PropVal)) : Prop :=
  ∀ v, dictGet "spacing" props = some v →
    v ∈ [PropVal.v (.str "small"), PropVal.v (.str "medium"), PropVal.v (.str "large")]

theorem buttonPropStep_style (props : List (String × PropVal))
    (kw : Option String × PExpr) (hp : stored_style_ok button_style_enum props) :
    stored_style_ok button_style_enum (buttonPropStep props kw) := by
  intro s hs
  rcases kw with ⟨k, e⟩
  cases k with
  | none => exact hp s hs
  | some arg_name =>
    unfold buttonPropStep at hs
    dsimp only at hs
    split at hs
    · split at hs
      · rename_i value heval
        rw [dictGet_insert] at hs
        by_cases harg : ("style" : String) = arg_name
        · subst harg
          rw [if_pos rfl] at hs
          cases value with
          | str s0 =>
            simp only [beq_self_eq_true, if_true, Option.some.injEq, PropVal.v.injEq,
              PyVal.str.injEq] at hs
            subst hs
            exact normalize_button_style_mem s0
          | int n => simp at hs
          | bool b => simp at hs
          | list l => simp at hs
        · rw [if_neg harg] at hs
          exact hp s hs
      · exact hp s hs
    · exact hp s hs

theorem textInputPropStep_style (props : List (String × PropVal))
    (kw : Option String × PExpr) (hp : stored_style_ok ["short", "paragraph"] props) :
    stored_style_ok ["short", "paragraph"] (textInputPropStep props kw) := by
  intro s hs
  rcases kw with ⟨k, e⟩
  cases k with
  | none => exact hp s hs
  | some arg_name =>
    unfold textInputPropStep at hs
    dsimp only at hs
    split at hs
    · split at hs
      · rename_i value heval
        rw [dictGet_insert] at hs
        by_cases harg : ("style" : String) = arg_name
        · subst harg
          rw [if_pos rfl] at hs
          cases value with
          | str s0 =>
            simp only [beq_self_eq_true, if_true, Option.some.injEq, PropVal.v.injEq,
              PyVal.str.injEq] at hs
            subst hs
            exact normalize_text_input_style_mem s0
          | int n => simp at hs
          | bool b => simp at hs
          | list l => simp at hs
        · rw [if_neg harg] at hs
          exact hp s hs
      · exact hp s hs
    · exact hp s hs

theorem separatorPropStep_spacing (props : List (String × PropVal))
    (kw : Option String × PExpr) (hp : stored_spacing_ok props) :
    stored_spacing_ok (separatorPropStep props kw) := by
  intro v hv
  rcases kw with ⟨k, e⟩
  cases k with
  | none => exact hp v hv
  | some arg_name =>
    unfold separatorPropStep at hv
    dsimp only at hv
    split at hv
    · split at hv
      · split at hv
        · split_ifs at hv <;>
          · rw [dictGet_insert, if_pos rfl, Option.some.injEq] at hv
            subst hv
            simp
        · exact hp v hv
      · exact hp v hv
    · exact hp v hv

/-- Adding the callback property never touches another key. -/
theorem withCallback_get_ne (cb : Option String) (props : List (String × PropVal))
    (k : String) (hk : k ≠ "callback") :
    dictGet k (withCallback cb props) = dictGet k props := by
  unfold withCallback
  split_ifs with h
  · rw [dictGet_insert, if_neg hk]
  · rfl

/-- C7, corrected.  Every STRING stored under `style` in a button component
is in the closed button enum, every string stored under `style` in a text
input is `short` or `paragraph`, and every value stored under `spacing` in a
separator is one of the three spacing constants (non-string spacing values
are omitted entirely).  The uncorrected claim fails because a non-string
evaluated style value bypasses normalization and is stored as-is: see the
counterexample theorem. -/
theorem style_spacing_normalization_spec (kws : List (Option String × PExpr))
    (cb : Option String) :
    stored_style_ok button_style_enum (buttonProperties kws cb) ∧
    stored_style_ok ["short", "paragraph"] (textInputProperties kws cb) ∧
    stored_spacing_ok (separatorProperties kws) := by
  refine ⟨?_, ?_, ?_⟩
  · intro s hs
    unfold buttonProperties at hs
    rw [withCallback_get_ne cb _ "style" (by decide)] at hs
    exact foldl_preserve (stored_style_ok button_style_enum) buttonPropStep
      buttonPropStep_style kws [] (by intro s2 h2; simp [dictGet] at h2) s hs
  · intro s hs
    unfold textInputProperties at hs
    rw [withCallback_get_ne cb _ "style" (by decide)] at hs
    exact foldl_preserve (stored_style_ok ["short", "paragraph"]) textInputPropStep
      textInputPropStep_style kws [] (by intro s2 h2; simp [dictGet] at h2) s hs
  · intro v hv
    unfold separatorProperties at hv
    exact foldl_preserve stored_spacing_ok separatorPropStep
      separatorPropStep_spacing kws [] (by intro v2 h2; simp [dictGet] at h2) v hv

/-- Witness for C7 (amended): the alias `green` is normalized into the
closed enum, and an unrecognized spacing string defaults to `medium`. -/
theorem style_spacing_normalization_spec_witness :
    dictGet "style" (buttonProperties [(some "style", .const (.sstr "green"))] none)
      = some (PropVal.v (.str "success")) ∧
    "success" ∈ button_style_enum ∧
    dictGet "spacing" (separatorProperties [(some "spacing", .const (.sstr "HUGE"))])
      = some (PropVal.v (.str "medium")) ∧
    PropVal.v (.str "medium") ∈
      [PropVal.v (.str "small"), PropVal.v (.str "medium"), PropVal.v (.str "large")] := by
  refine ⟨rfl, ?_, rfl, ?_⟩
  · exact (style_spacing_normalization_spec
      [(some "style", .const (.sstr "green"))] none).1 "success" rfl
  · exact (style_spacing_normalization_spec
      [(some "spacing", .const (.sstr "HUGE"))] none).2.2 (PropVal.v (.str "medium")) rfl

/-- Counterexample for C7 as stated: a button whose `style` keyword is the
integer constant 1 stores the raw integer — an un-normalized value outside
the closed style enum. -/
theorem style_normalization_claim_counterexample :
    dictGet "style" (buttonProperties [(some "style", .const (.sint 1))] none)
      = some (PropVal.v (.int 1)) ∧
    PropVal.v (PyVal.int 1) ≠ PropVal.v (PyVal.str "primary") ∧
    PropVal.v (PyVal.int 1) ≠ PropVal.v (PyVal.str "secondary") ∧
    PropVal.v (PyVal.int 1) ≠ PropVal.v (PyVal.str "success") ∧
    PropVal.v (PyVal.int 1) ≠ PropVal.v (PyVal.str "danger") ∧
    PropVal.v (PyVal.int 1) ≠ PropVal.v (PyVal.str "link") := by
  refine ⟨rfl, ?_, ?_, ?_, ?_, ?_⟩ <;> simp

/-! ## Media gallery items (claim C8) -/

/-- The structural evaluator can never produce a Python list value. -/
theorem evaluate_value_ne_list (e : PExpr) (l : List PyVal) :
    _evaluate_value e ≠ some (PyVal.list l) := by
  unfold _evaluate_value
  split
  · split <;> simp
  · simp
  · simp
  · simp

/-- For a non-list value the media items handling stores only the
`<dynamic>` marker. -/
theorem mediaItemsInsert_not_list (v : PyVal) (props : List (String × PropVal))
    (hv : ∀ l, v ≠ PyVal.list l) :
    mediaItemsInsert v props = dictInsert "items" (PropVal.v (.str "<dynamic>")) props := by
  cases v with
  | list l => exact absurd rfl (hv l)
  | str s => rfl
  | int n => rfl
  | bool b => rfl

/-- The items invariant: no item count is ever stored, and any stored items
value is the `<dynamic>` marker. -/
def media_props_ok (props : List (String × PropVal)) : Prop :=
  dictGet "item_count" props = none ∧
  ∀ x, dictGet "items" props = some x → x = PropVal.v (.str "<dynamic>")

theorem mediaPropStep_ok (props : List (String × PropVal))
    (kw : Option String × PExpr) (hp : media_props_ok props) :
    media_props_ok (mediaPropStep props kw) := by
  rcases kw with ⟨k, e⟩
  cases k with
  | none => exact hp
  | some arg_name =>
    unfold mediaPropStep
    dsimp only
    split
    · cases heval : _evaluate_value e with
      | none => exact hp
      | some value =>
        have hne : ∀ l, value ≠ PyVal.list l := by
          intro l hl
          exact evaluate_value_ne_list e l (hl ▸ heval)
        dsimp only
        rw [mediaItemsInsert_not_list value props hne]
        constructor
        · rw [dictGet_insert, if_neg (by decide)]
          exact hp.1
        · intro x hx
          rw [dictGet_insert, if_pos rfl, Option.some.injEq] at hx
          exact hx.symm
    · exact hp

/-- C8, corrected.  The evaluator never yields a list, so the verbatim
storage and item-count branch of the media-gallery extractor is unreachable:
no `item_count` property is ever stored, and whenever an `items` property is
stored its value is the `<dynamic>` marker.  An `items` argument that IS a
list literal evaluates to `None` and is omitted entirely (neither stored
verbatim nor marked dynamic): see the counterexample. -/
theorem media_gallery_items_spec (args : List PExpr)
    (kws : List (Option String × PExpr)) :
    dictGet "item_count" (mediaGalleryProperties args kws) = none ∧
    (∀ x, dictGet "items" (mediaGalleryProperties args kws) = some x →
      x = PropVal.v (.str "<dynamic>")) := by
  have hfold : media_props_ok (kws.foldl mediaPropStep []) :=
    foldl_preserve media_props_ok mediaPropStep mediaPropStep_ok kws []
      ⟨by simp [dictGet], by intro x hx; simp [dictGet] at hx⟩
  unfold mediaGalleryProperties
  cases args with
  | nil => exact hfold
  | cons a rest =>
    dsimp only
    split_ifs with hnone
    · cases heval : _evaluate_value a with
      | none => exact hfold
      | some value =>
        have hne : ∀ l, value ≠ PyVal.list l := by
          intro l hl
          exact evaluate_value_ne_list a l (hl ▸ heval)
        dsimp only
        rw [mediaItemsInsert_not_list value _ hne]
        constructor
        · rw [dictGet_insert, if_neg (by decide)]
          exact hfold.1
        · intro x hx
          rw [dictGet_insert, if_pos rfl, Option.some.injEq] at hx
          exact hx.symm
    · exact hfold

/-- Witness for C8 (amended) at a concrete media-gallery call whose items
argument is a variable reference: the value is marked dynamic and no item
count is stored. -/
theorem media_gallery_items_spec_witness :
    dictGet "item_count" (mediaGalleryProperties [] [(some "items", PExpr.name "pics")])
      = none ∧
    dictGet "items" (mediaGalleryProperties [] [(some "items", PExpr.name "pics")])
      = some (PropVal.v (.str "<dynamic>")) ∧
    PropVal.v (PyVal.str "<dynamic>") = PropVal.v (PyVal.str "<dynamic>") := by
  refine ⟨(media_gallery_items_spec [] [(some "items", PExpr.name "pics")]).1, rfl, ?_⟩
  exact (media_gallery_items_spec [] [(some "items", PExpr.name "pics")]).2
    (PropVal.v (.str "<dynamic>")) rfl

/-- Counterexample for C8 as stated: a media-gallery call whose `items`
keyword is a list literal.  The claim requires the list stored verbatim with
an item count (it is a resolvable list), or at least a dynamic marker; the
code evaluates the list literal to `None` and stores nothing at all. -/
theorem media_gallery_claim_counterexample :
    _evaluate_value (.listE [.call 21 4 (.name "MediaItem") [] []]) = none ∧
    mediaGalleryProperties []
      [(some "items", .listE [.call 21 4 (.name "MediaItem") [] []])] = [] :=
  ⟨rfl, rfl⟩

/-! ## Step effects of the extraction dispatchers

`DispatchEffect st st2 nid` records what one classification dispatch may do:
append at most one component record, whose provenance is the dispatched call
node, while leaving the processed-node set and the binding table alone. -/

def DispatchEffect (st st2 : Visitor) (nid : Nat) : Prop :=
  (st2.components = st.components ∨
    ∃ comp : Component, comp.origin = nid ∧ st2.components = st.components ++ [comp]) ∧
  st2.processed_nodes = st.processed_nodes ∧
  st2.variables' = st.variables'

theorem pushComponent_dispatchEffect (st : Visitor) (ty : String)
    (props : List (String × PropVal)) (line nid : Nat) (vn : Option String)
    (line2 : Nat) :
    DispatchEffect st (pushComponent st ⟨ty, props, line, nid⟩ vn line2) nid := by
  have h := pushComponent_fields st ⟨ty, props, line, nid⟩ vn line2
  exact ⟨Or.inr ⟨⟨ty, props, line, nid⟩, rfl, h.1⟩, h.2.2.1, h.2.2.2.1⟩

theorem trackOnly_dispatchEffect (st st2 : Visitor) (nid : Nat)
    (hc : st2.components = st.components) (hp : st2.processed_nodes = st.processed_nodes)
    (hv : st2.variables' = st.variables') : DispatchEffect st st2 nid :=
  ⟨Or.inl hc, hp, hv⟩

theorem track_container_effects (st : Visitor) (vn : String)
    (kws : List (Option String × PExpr)) (line : Nat) (nid : Nat) :
    DispatchEffect st (_track_container st vn kws line) nid :=
  trackOnly_dispatchEffect st _ nid rfl rfl rfl

theorem track_section_effects (st : Visitor) (vn : String)
    (kws : List (Option String × PExpr)) (line : Nat) (nid : Nat) :
    DispatchEffect st (_track_section st vn kws line) nid :=
  trackOnly_dispatchEffect st _ nid rfl rfl rfl

theorem track_action_row_effects (st : Visitor) (vn : String)
    (kws : List (Option String × PExpr)) (line : Nat) (nid : Nat) :
    DispatchEffect st (_track_action_row st vn kws line) nid :=
  trackOnly_dispatchEffect st _ nid rfl rfl rfl

/-- `_track_hierarchy_call` never touches components, the processed set or
the binding table. -/
theorem track_hierarchy_call_fields (st : Visitor) (line : Nat) (func : PExpr)
    (args : List PExpr) (mname : String) :
    (_track_hierarchy_call st line func args mname).components = st.components ∧
    (_track_hierarchy_call st line func args mname).processed_nodes = st.processed_nodes ∧
    (_track_hierarchy_call st line func args mname).variables' = st.variables' := by
  refine ⟨?_, ?_, ?_⟩ <;>
    · unfold _track_hierarchy_call
      cases args with
      | nil =>
        dsimp only
        split_ifs <;> rfl
      | cons arg rest =>
        cases arg with
        | call anid aln f2 a2 k2 =>
          cases hlast : st.class_components.getLast? with
          | none =>
            dsimp only
            split_ifs <;> rfl
          | some lastc =>
            dsimp only
            split_ifs <;> rfl
        | const v =>
          dsimp only
          split_ifs <;> rfl
        | name n =>
          dsimp only
          split_ifs <;> rfl
        | attr v a =>
          dsimp only
          split_ifs <;> rfl
        | ifExp c t f =>
          dsimp only
          split_ifs <;> rfl
        | listE es =>
          dsimp only
          split_ifs <;> rfl
        | listComp e =>
          dsimp only
          split_ifs <;> rfl
        | dyn =>
          dsimp only
          split_ifs <;> rfl

theorem track_hierarchy_call_effects (st : Visitor) (line : Nat) (func : PExpr)
    (args : List PExpr) (mname : String) (nid : Nat) :
    DispatchEffect st (_track_hierarchy_call st line func args mname) nid :=
  trackOnly_dispatchEffect st _ nid
    (track_hierarchy_call_fields st line func args mname).1
    (track_hierarchy_call_fields st line func args mname).2.1
    (track_hierarchy_call_fields st line func args mname).2.2

theorem extract_button_effects (st : Visitor) (nid : Nat)
    (kws : List (Option String × PExpr)) (line : Nat) (cb vn : Option String) :
    DispatchEffect st (_extract_button_properties st nid kws line cb vn) nid :=
  pushComponent_dispatchEffect st "button" (buttonProperties kws cb) line nid vn line

theorem extract_select_effects (st : Visitor) (nid : Nat)
    (kws : List (Option String × PExpr)) (line : Nat) (cb vn : Option String) :
    DispatchEffect st (_extract_select_menu_properties st nid kws line cb vn) nid :=
  pushComponent_dispatchEffect st "select_menu" (selectProperties st.variables' kws cb)
    line nid vn line

theorem extract_text_input_effects (st : Visitor) (nid : Nat)
    (kws : List (Option String × PExpr)) (line : Nat) (cb vn : Option String) :
    DispatchEffect st (_extract_text_input_properties st nid kws line cb vn) nid :=
  pushComponent_dispatchEffect st "text_input" (textInputProperties kws cb) line nid vn line

theorem extract_text_display_effects (st : Visitor) (nid : Nat)
    (kws : List (Option String × PExpr)) (line : Nat) (vn : Option String) :
    DispatchEffect st (_extract_text_display_properties st nid kws line vn) nid :=
  pushComponent_dispatchEffect st "text_display"
    (kws.foldl (plainPropStep ["content", "style"]) []) line nid vn line

theorem extract_label_effects (st : Visitor) (nid : Nat)
    (kws : List (Option String × PExpr)) (line : Nat) (vn : Option String) :
    DispatchEffect st (_extract_label_properties st nid kws line vn) nid :=
  pushComponent_dispatchEffect st "label"
    (kws.foldl (plainPropStep ["text", "for"]) []) line nid vn line

theorem extract_separator_effects (st : Visitor) (nid : Nat)
    (kws : List (Option String × PExpr)) (line : Nat) (vn : Option String) :
    DispatchEffect st (_extract_separator_properties st nid kws line vn) nid :=
  pushComponent_dispatchEffect st "separator" (separatorProperties kws) line nid vn line

theorem extract_thumbnail_effects (st : Visitor) (nid : Nat)
    (kws : List (Option String × PExpr)) (line : Nat) (vn : Option String) :
    DispatchEffect st (_extract_thumbnail_properties st nid kws line vn) nid :=
  pushComponent_dispatchEffect st "thumbnail"
    (kws.foldl (plainPropStep ["url", "alt", "width", "height"]) []) line nid vn line

theorem extract_file_effects (st : Visitor) (nid : Nat) (args : List PExpr)
    (kws : List (Option String × PExpr)) (line : Nat) (vn : Option String) :
    DispatchEffect st (_extract_file_properties st nid args kws line vn) nid :=
  pushComponent_dispatchEffect st "file" (fileProperties args kws) line nid vn line

theorem extract_media_gallery_effects (st : Visitor) (nid : Nat) (args : List PExpr)
    (kws : List (Option String × PExpr)) (line : Nat) (vn : Option String) :
    DispatchEffect st (_extract_media_gallery_properties st nid args kws line vn) nid :=
  pushComponent_dispatchEffect st "media_gallery" (mediaGalleryProperties args kws)
    line nid vn line

theorem extract_file_upload_effects (st : Visitor) (nid : Nat)
    (kws : List (Option String × PExpr)) (line : Nat) (vn : Option String) :
    DispatchEffect st (_extract_file_upload_properties st nid kws line vn) nid :=
  pushComponent_dispatchEffect st "file_upload"
    (kws.foldl (plainPropStep ["accept", "multiple"]) []) line nid vn line

set_option maxHeartbeats 2000000

theorem assignDispatch_effects (st : Visitor) (nid line : Nat) (func : PExpr)
    (args : List PExpr) (kws : List (Option String × PExpr)) (vn : String) :
    DispatchEffect st (assignDispatch st nid line func args kws vn) nid := by
  unfold assignDispatch
  by_cases h1 : _is_button_call func = true
  · rw [if_pos h1]
    exact extract_button_effects st nid kws line none (some vn)
  rw [if_neg h1]
  by_cases h2 : _is_select_menu_call func = true
  · rw [if_pos h2]
    exact extract_select_effects st nid kws line none (some vn)
  rw [if_neg h2]
  by_cases h3 : _is_text_input_call func = true
  · rw [if_pos h3]
    exact extract_text_input_effects st nid kws line none (some vn)
  rw [if_neg h3]
  by_cases h4 : _is_container_call func = true
  · rw [if_pos h4]
    exact track_container_effects st vn kws line nid
  rw [if_neg h4]
  by_cases h5 : _is_section_call func = true
  · rw [if_pos h5]
    exact track_section_effects st vn kws line nid
  rw [if_neg h5]
  by_cases h6 : _is_action_row_call func = true
  · rw [if_pos h6]
    exact track_action_row_effects st vn kws line nid
  rw [if_neg h6]
  by_cases h7 : _is_text_display_call func = true
  · rw [if_pos h7]
    exact extract_text_display_effects st nid kws line (some vn)
  rw [if_neg h7]
  by_cases h8 : _is_label_call func = true
  · rw [if_pos h8]
    exact extract_label_effects st nid kws line (some vn)
  rw [if_neg h8]
  by_cases h9 : _is_separator_call func = true
  · rw [if_pos h9]
    exact extract_separator_effects st nid kws line (some vn)
  rw [if_neg h9]
  by_cases h10 : _is_thumbnail_call func = true
  · rw [if_pos h10]
    exact extract_thumbnail_effects st nid kws line (some vn)
  rw [if_neg h10]
  by_cases h11 : _is_file_call func = true
  · rw [if_pos h11]
    exact extract_file_effects st nid args kws line (some vn)
  rw [if_neg h11]
  by_cases h12 : _is_media_gallery_call func = true
  · rw [if_pos h12]
    exact extract_media_gallery_effects st nid args kws line (some vn)
  rw [if_neg h12]
  by_cases h13 : _is_file_upload_call func = true
  · rw [if_pos h13]
    exact extract_file_upload_effects st nid kws line (some vn)
  rw [if_neg h13]
  exact trackOnly_dispatchEffect st st nid rfl rfl rfl

theorem addItemDispatch_effects (st : Visitor) (anid line : Nat) (func : PExpr)
    (args : List PExpr) (kws : List (Option String × PExpr)) (vn : Option String) :
    DispatchEffect st (addItemDispatch st anid line func args kws vn) anid := by
  unfold addItemDispatch
  by_cases h1 : _is_button_call func = true
  · rw [if_pos h1]
    exact extract_button_effects st anid kws line none vn
  rw [if_neg h1]
  by_cases h2 : _is_select_menu_call func = true
  · rw [if_pos h2]
    exact extract_select_effects st anid kws line none vn
  rw [if_neg h2]
  by_cases h3 : _is_text_input_call func = true
  · rw [if_pos h3]
    exact extract_text_input_effects st anid kws line none vn
  rw [if_neg h3]
  by_cases h4 : _is_text_display_call func = true
  · rw [if_pos h4]
    exact extract_text_display_effects st anid kws line vn
  rw [if_neg h4]
  by_cases h5 : _is_label_call func = true
  · rw [if_pos h5]
    exact extract_label_effects st anid kws line vn
  rw [if_neg h5]
  by_cases h6 : _is_separator_call func = true
  · rw [if_pos h6]
    exact extract_separator_effects st anid kws line vn
  rw [if_neg h6]
  by_cases h7 : _is_thumbnail_call func = true
  · rw [if_pos h7]
    exact extract_thumbnail_effects st anid kws line vn
  rw [if_neg h7]
  by_cases h8 : _is_file_call func = true
  · rw [if_pos h8]
    exact extract_file_effects st anid args kws line vn
  rw [if_neg h8]
  by_cases h9 : _is_media_gallery_call func = true
  · rw [if_pos h9]
    exact extract_media_gallery_effects st anid args kws line vn
  rw [if_neg h9]
  by_cases h10 : _is_file_upload_call func = true
  · rw [if_pos h10]
    exact extract_file_upload_effects st anid kws line vn
  rw [if_neg h10]
  exact trackOnly_dispatchEffect st st anid rfl rfl rfl

set_option maxHeartbeats 200000

theorem decoStep_effects (st : Visitor) (cb : String) (d : PExpr) :
    ∃ new, (decoStep st cb d).components = st.components ++ new ∧
      (decoStep st cb d).processed_nodes = st.processed_nodes ∧
      (decoStep st cb d).variables' = st.variables' ∧
      (new = [] ∨ ∃ nid l f a k comp, d = PExpr.call nid l f a k ∧
        (comp : Component).origin = nid ∧ new = [comp]) := by
  unfold decoStep
  cases d with
  | call nid l f a k =>
    dsimp only
    split_ifs with h1 h2
    · have h := pushComponent_dispatchEffect st "button" (buttonProperties k (some cb)) l nid none l
      rcases h with ⟨hc, hp, hv⟩
      rcases hc with hc | ⟨comp, ho, hc⟩
      · exact ⟨[], by simpa using hc, by
          simpa [_extract_button_properties] using hp, by
          simpa [_extract_button_properties] using hv, Or.inl rfl⟩
      · exact ⟨[comp], by simpa [_extract_button_properties] using hc, by
          simpa [_extract_button_properties] using hp, by
          simpa [_extract_button_properties] using hv,
          Or.inr ⟨nid, l, f, a, k, comp, rfl, ho, rfl⟩⟩
    · have h := pushComponent_dispatchEffect st "select_menu"
        (selectProperties st.variables' k (some cb)) l nid none l
      rcases h with ⟨hc, hp, hv⟩
      rcases hc with hc | ⟨comp, ho, hc⟩
      · exact ⟨[], by simpa [_extract_select_menu_properties] using hc, by
          simpa [_extract_select_menu_properties] using hp, by
          simpa [_extract_select_menu_properties] using hv, Or.inl rfl⟩
      · exact ⟨[comp], by simpa [_extract_select_menu_properties] using hc, by
          simpa [_extract_select_menu_properties] using hp, by
          simpa [_extract_select_menu_properties] using hv,
          Or.inr ⟨nid, l, f, a, k, comp, rfl, ho, rfl⟩⟩
    · exact ⟨[], by simp, rfl, rfl, Or.inl rfl⟩
  | const v => exact ⟨[], by simp, rfl, rfl, Or.inl rfl⟩
  | name n => exact ⟨[], by simp, rfl, rfl, Or.inl rfl⟩
  | attr v a => exact ⟨[], by simp, rfl, rfl, Or.inl rfl⟩
  | ifExp c t f => exact ⟨[], by simp, rfl, rfl, Or.inl rfl⟩
  | listE es => exact ⟨[], by simp, rfl, rfl, Or.inl rfl⟩
  | listComp e => exact ⟨[], by simp, rfl, rfl, Or.inl rfl⟩
  | dyn => exact ⟨[], by simp, rfl, rfl, Or.inl rfl⟩

/-- `_extract_add_item_component` appends at most one component, whose
provenance is the first argument when that argument is a call. -/
theorem extract_add_item_effects (st : Visitor) (line : Nat) (args : List PExpr) :
    ∃ new, (_extract_add_item_component st line args).components = st.components ++ new ∧
      (_extract_add_item_component st line args).variables' = st.variables' ∧
      (new = [] ∨ ∃ anid aln af aargs akws comp,
        args.head? = some (PExpr.call anid aln af aargs akws) ∧
        (comp : Component).origin = anid ∧ new = [comp]) := by
  unfold _extract_add_item_component
  cases args with
  | nil => exact ⟨[], by simp, rfl, Or.inl rfl⟩
  | cons arg rest =>
    cases arg with
    | call anid aln af aargs akws =>
      dsimp only
      split_ifs with hproc
      · exact ⟨[], by simp, rfl, Or.inl rfl⟩
      · obtain ⟨hc, hp, hv⟩ := addItemDispatch_effects
          { st with processed_nodes := st.processed_nodes ++ [anid] }
          anid line af aargs akws none
        rcases hc with hc | ⟨comp, ho, hc⟩
        · exact ⟨[], by simpa using hc, by simpa using hv, Or.inl rfl⟩
        · exact ⟨[comp], by simpa using hc, by simpa using hv,
            Or.inr ⟨anid, aln, af, aargs, akws, comp, rfl, ho, rfl⟩⟩
    | const v => exact ⟨[], by simp, rfl, Or.inl rfl⟩
    | name n => exact ⟨[], by simp, rfl, Or.inl rfl⟩
    | attr v a => exact ⟨[], by simp, rfl, Or.inl rfl⟩
    | ifExp c t f => exact ⟨[], by simp, rfl, Or.inl rfl⟩
    | listE es => exact ⟨[], by simp, rfl, Or.inl rfl⟩
    | listComp e => exact ⟨[], by simp, rfl, Or.inl rfl⟩
    | dyn => exact ⟨[], by simp, rfl, Or.inl rfl⟩

/-- `visit_Call` appends at most one component, whose provenance is the
first argument of the call when that argument is itself a call. -/
theorem visit_Call_step_effects (st : Visitor) (nid lineno : Nat) (func : PExpr)
    (args : List PExpr) (kws : List (Option String × PExpr)) :
    ∃ new, (visit_Call_step st nid lineno func args kws).components = st.components ++ new ∧
      (visit_Call_step st nid lineno func args kws).variables' = st.variables' ∧
      (new = [] ∨ ∃ anid aln af aargs akws comp,
        args.head? = some (PExpr.call anid aln af aargs akws) ∧
        (comp : Component).origin = anid ∧ new = [comp]) := by
  unfold visit_Call_step
  split_ifs with h1 h2 h3 h4
  · obtain ⟨new, hc, hv, hd⟩ := extract_add_item_effects st lineno args
    obtain ⟨hc2, hp2, hv2⟩ := track_hierarchy_call_fields
      (_extract_add_item_component st lineno args) lineno func args "add_item"
    exact ⟨new, hc2.trans hc, hv2.trans hv, hd⟩
  · obtain ⟨hc2, hp2, hv2⟩ := track_hierarchy_call_fields st lineno func args "add_section"
    exact ⟨[], by simpa using hc2, hv2, Or.inl rfl⟩
  · obtain ⟨hc2, hp2, hv2⟩ := track_hierarchy_call_fields st lineno func args "add_row"
    exact ⟨[], by simpa using hc2, hv2, Or.inl rfl⟩
  · obtain ⟨hc2, hp2, hv2⟩ := track_hierarchy_call_fields st lineno func args "append_item"
    exact ⟨[], by simpa using hc2, hv2, Or.inl rfl⟩
  · exact ⟨[], by simp, rfl, Or.inl rfl⟩

/-- Once the assigned call value is in the processed set, the rest of the
target loop changes neither the components nor the processed set. -/
theorem assignTargets_blocked (targets : List PTarget) :
    ∀ (st : Visitor) (lineno nid l : Nat) (f : PExpr) (a : List PExpr)
      (k : List (Option String × PExpr)),
      st.processed_nodes.contains nid = true →
      (visit_Assign_targets st targets (PExpr.call nid l f a k) lineno).components
        = st.components ∧
      (visit_Assign_targets st targets (PExpr.call nid l f a k) lineno).processed_nodes
        = st.processed_nodes := by
  induction targets with
  | nil => intro st lineno nid l f a k hc; exact ⟨rfl, rfl⟩
  | cons tgt rest ih =>
    intro st lineno nid l f a k hc
    cases tgt with
    | tother =>
      have hstep : assignTargetStep st (PExpr.call nid l f a k) lineno .tother = st := rfl
      unfold visit_Assign_targets at *
      simpa [hstep] using ih st lineno nid l f a k hc
    | tname v =>
      have hstep : assignTargetStep st (PExpr.call nid l f a k) lineno (.tname v) =
          { st with variables' := dictInsert v (PExpr.call nid l f a k) st.variables' } := by
        unfold assignTargetStep
        dsimp only
        rw [if_pos hc]
      unfold visit_Assign_targets at *
      have := ih { st with variables' := dictInsert v (PExpr.call nid l f a k) st.variables' }
        lineno nid l f a k (by simpa using hc)
      simpa [hstep] using this

/-- The target loop of `visit_Assign` appends at most one component, whose
provenance is the assigned value when it is a call. -/
theorem assignTargets_effects (targets : List PTarget) :
    ∀ (st : Visitor) (value : PExpr) (lineno : Nat),
      ∃ new, (visit_Assign_targets st targets value lineno).components
          = st.components ++ new ∧
        (new = [] ∨ ∃ nid l f a k comp, value = PExpr.call nid l f a k ∧
          (comp : Component).origin = nid ∧ new = [comp]) := by
  induction targets with
  | nil => intro st value lineno; exact ⟨[], by simp [visit_Assign_targets], Or.inl rfl⟩
  | cons tgt rest ih =>
    intro st value lineno
    cases tgt with
    | tother =>
      have hstep : assignTargetStep st value lineno .tother = st := rfl
      obtain ⟨new, hc, hd⟩ := ih st value lineno
      exact ⟨new, by
        unfold visit_Assign_targets at hc ⊢
        simpa [hstep] using hc, hd⟩
    | tname v =>
      cases value with
      | call nid l f a k =>
        by_cases hproc : st.processed_nodes.contains nid = true
        · have hstep : assignTargetStep st (PExpr.call nid l f a k) lineno (.tname v) =
              { st with variables' := dictInsert v (PExpr.call nid l f a k) st.variables' } := by
            unfold assignTargetStep
            dsimp only
            rw [if_pos hproc]
          have hblocked := assignTargets_blocked rest
            { st with variables' := dictInsert v (PExpr.call nid l f a k) st.variables' }
            lineno nid l f a k (by simpa using hproc)
          refine ⟨[], ?_, Or.inl rfl⟩
          unfold visit_Assign_targets at hblocked ⊢
          rw [List.foldl_cons, hstep]
          simpa using hblocked.1
        · have hstep : assignTargetStep st (PExpr.call nid l f a k) lineno (.tname v) =
              assignDispatch
                { st with
                  variables' := dictInsert v (PExpr.call nid l f a k) st.variables',
                  processed_nodes := st.processed_nodes ++ [nid] }
                nid lineno f a k v := by
            unfold assignTargetStep
            dsimp only
            rw [if_neg hproc]
          obtain ⟨hcd, hpd, hvd⟩ := assignDispatch_effects
            { st with
              variables' := dictInsert v (PExpr.call nid l f a k) st.variables',
              processed_nodes := st.processed_nodes ++ [nid] }
            nid lineno f a k v
          have hcontains :
              (assignTargetStep st (PExpr.call nid l f a k) lineno (.tname v)).processed_nodes.contains nid
                = true := by
            rw [hstep, hpd]
            simp
          obtain ⟨hb1, hb2⟩ := assignTargets_blocked rest
            (assignTargetStep st (PExpr.call nid l f a k) lineno (.tname v))
            lineno nid l f a k hcontains
          rcases hcd with hcd | ⟨comp, ho, hcd⟩
          · refine ⟨[], ?_, Or.inl rfl⟩
            unfold visit_Assign_targets at hb1 ⊢
            rw [List.foldl_cons]
            rw [hb1, hstep, hcd]
            simp
          · refine ⟨[comp], ?_, Or.inr ⟨nid, l, f, a, k, comp, rfl, ho, rfl⟩⟩
            unfold visit_Assign_targets at hb1 ⊢
            rw [List.foldl_cons]
            rw [hb1, hstep, hcd]
      | const v2 =>
        obtain ⟨new, hc, hd⟩ := ih
          { st with variables' := dictInsert v (PExpr.const v2) st.variables' }
          (PExpr.const v2) lineno
        refine ⟨new, ?_, hd⟩
        unfold visit_Assign_targets at hc ⊢
        rw [List.foldl_cons]
        simpa using hc
      | name n =>
        obtain ⟨new, hc, hd⟩ := ih
          { st with variables' := dictInsert v (PExpr.name n) st.variables' }
          (PExpr.name n) lineno
        refine ⟨new, ?_, hd⟩
        unfold visit_Assign_targets at hc ⊢
        rw [List.foldl_cons]
        simpa using hc
      | attr v2 a2 =>
        obtain ⟨new, hc, hd⟩ := ih
          { st with variables' := dictInsert v (PExpr.attr v2 a2) st.variables' }
          (PExpr.attr v2 a2) lineno
        refine ⟨new, ?_, hd⟩
        unfold visit_Assign_targets at hc ⊢
        rw [List.foldl_cons]
        simpa using hc
      | ifExp c t f =>
        obtain ⟨new, hc, hd⟩ := ih
          { st with variables' := dictInsert v (PExpr.ifExp c t f) st.variables' }
          (PExpr.ifExp c t f) lineno
        refine ⟨new, ?_, hd⟩
        unfold visit_Assign_targets at hc ⊢
        rw [List.foldl_cons]
        simpa using hc
      | listE es =>
        obtain ⟨new, hc, hd⟩ := ih
          { st with variables' := dictInsert v (PExpr.listE es) st.variables' }
          (PExpr.listE es) lineno
        refine ⟨new, ?_, hd⟩
        unfold visit_Assign_targets at hc ⊢
        rw [List.foldl_cons]
        simpa using hc
      | listComp e =>
        obtain ⟨new, hc, hd⟩ := ih
          { st with variables' := dictInsert v (PExpr.listComp e) st.variables' }
          (PExpr.listComp e) lineno
        refine ⟨new, ?_, hd⟩
        unfold visit_Assign_targets at hc ⊢
        rw [List.foldl_cons]
        simpa using hc
      | dyn =>
        obtain ⟨new, hc, hd⟩ := ih
          { st with variables' := dictInsert v PExpr.dyn st.variables' }
          PExpr.dyn lineno
        refine ⟨new, ?_, hd⟩
        unfold visit_Assign_targets at hc ⊢
        rw [List.foldl_cons]
        simpa using hc

/-- `visit_AnnAssign` appends at most one component, whose provenance is the
annotated value when it is a call. -/
theorem annAssign_effects (st : Visitor) (target : PTarget) (value : Option PExpr)
    (lineno : Nat) :
    ∃ new, (visit_AnnAssign_target st target value lineno).components
        = st.components ++ new ∧
      (visit_AnnAssign_target st target value lineno).variables' = st.variables' ∧
      (new = [] ∨ ∃ nid l f a k comp, value = some (PExpr.call nid l f a k) ∧
        (comp : Component).origin = nid ∧ new = [comp]) := by
  unfold visit_AnnAssign_target
  split
  · rename_i variable_name nid l func args kws
    split_ifs with hp h1 h2 h3
    · exact ⟨[], by simp, rfl, Or.inl rfl⟩
    · obtain ⟨hc, hpp, hv⟩ := extract_button_effects
        { st with processed_nodes := st.processed_nodes ++ [nid] }
        nid kws lineno (some variable_name) none
      rcases hc with hc | ⟨comp, ho, hc⟩
      · exact ⟨[], by simpa using hc, by simpa using hv, Or.inl rfl⟩
      · exact ⟨[comp], by simpa using hc, by simpa using hv,
          Or.inr ⟨nid, l, func, args, kws, comp, rfl, ho, rfl⟩⟩
    · obtain ⟨hc, hpp, hv⟩ := extract_select_effects
        { st with processed_nodes := st.processed_nodes ++ [nid] }
        nid kws lineno (some variable_name) none
      rcases hc with hc | ⟨comp, ho, hc⟩
      · exact ⟨[], by simpa using hc, by simpa using hv, Or.inl rfl⟩
      · exact ⟨[comp], by simpa using hc, by simpa using hv,
          Or.inr ⟨nid, l, func, args, kws, comp, rfl, ho, rfl⟩⟩
    · obtain ⟨hc, hpp, hv⟩ := extract_text_input_effects
        { st with processed_nodes := st.processed_nodes ++ [nid] }
        nid kws lineno (some variable_name) none
      rcases hc with hc | ⟨comp, ho, hc⟩
      · exact ⟨[], by simpa using hc, by simpa using hv, Or.inl rfl⟩
      · exact ⟨[comp], by simpa using hc, by simpa using hv,
          Or.inr ⟨nid, l, func, args, kws, comp, rfl, ho, rfl⟩⟩
    · exact ⟨[], by simp, rfl, Or.inl rfl⟩
  · exact ⟨[], by simp, rfl, Or.inl rfl⟩

/-- The decorator loop appends components whose provenance multiset is
bounded by the decorator call identities, and touches neither the processed
set nor the binding table. -/
theorem decoLoop_effects (decorators : List PExpr) :
    ∀ (st : Visitor) (cb : String),
      ∃ new, (visit_FunctionDef_decorators st cb decorators).components
          = st.components ++ new ∧
        (visit_FunctionDef_decorators st cb decorators).processed_nodes
          = st.processed_nodes ∧
        (visit_FunctionDef_decorators st cb decorators).variables' = st.variables' ∧
        ∀ o, (new.map Component.origin).count o ≤ (decoCallTops decorators).count o := by
  induction decorators with
  | nil =>
    intro st cb
    exact ⟨[], by simp [visit_FunctionDef_decorators], rfl, rfl, by simp [decoCallTops]⟩
  | cons d rest ih =>
    intro st cb
    obtain ⟨new0, hc0, hp0, hv0, hd0⟩ := decoStep_effects st cb d
    obtain ⟨new1, hc1, hp1, hv1, hcnt⟩ := ih (decoStep st cb d) cb
    refine ⟨new0 ++ new1, ?_, ?_, ?_, ?_⟩
    · unfold visit_FunctionDef_decorators at hc1 ⊢
      rw [List.foldl_cons, hc1, hc0, List.append_assoc]
    · unfold visit_FunctionDef_decorators at hp1 ⊢
      rw [List.foldl_cons, hp1, hp0]
    · unfold visit_FunctionDef_decorators at hv1 ⊢
      rw [List.foldl_cons, hv1, hv0]
    · intro o
      have hsplit : decoCallTops (d :: rest) = decoCallTops [d] ++ decoCallTops rest := by
        cases d <;> simp [decoCallTops]
      have hstep : (new0.map Component.origin).count o ≤ (decoCallTops [d]).count o := by
        rcases hd0 with h | ⟨nid2, l2, f2, a2, k2, comp, hdeq, ho, hnew⟩
        · subst h
          simp
        · subst hnew
          subst hdeq
          simp [decoCallTops, ho]
      rw [hsplit, List.count_append, List.map_append, List.count_append]
      exact Nat.add_le_add hstep (hcnt o)

/-- The per-step component accounting: each work-list step appends component
records whose provenance multiset is bounded by the node identities consumed
at that step. -/
theorem headStep_components (st : Visitor) (t : Task) :
    ∃ new, (headStep st t).components = st.components ++ new ∧
      ∀ o, (new.map Component.origin).count o ≤ (headIds t).count o := by
  cases t with
  | stmt s =>
    cases s with
    | assign targets value lineno =>
      obtain ⟨new, hc, hd⟩ := assignTargets_effects targets st value lineno
      refine ⟨new, hc, ?_⟩
      intro o
      rcases hd with h | ⟨nid, l, f, a, k, comp, hv, ho, hnew⟩
      · subst h
        simp
      · subst hnew
        subst hv
        simp [headIds, ho]
    | annAssign target value lineno =>
      obtain ⟨new, hc, hv2, hd⟩ := annAssign_effects st target value lineno
      refine ⟨new, hc, ?_⟩
      intro o
      rcases hd with h | ⟨nid, l, f, a, k, comp, hv, ho, hnew⟩
      · subst h
        simp
      · subst hnew
        subst hv
        simp [headIds, ho]
    | exprStmt e => exact ⟨[], by simp [headStep], by simp⟩
    | funcDef nm decorators body lineno =>
      obtain ⟨new, hc, hp, hv, hcnt⟩ := decoLoop_effects decorators st nm
      refine ⟨new, ?_, ?_⟩
      · simpa [headStep] using hc
      · intro o
        simpa [headIds] using hcnt o
    | classDef nm bases body lineno =>
      refine ⟨[], ?_, by simp⟩
      unfold headStep
      cases hct : classTypeOf bases with
      | none => simp [hct]
      | some ctl => rcases ctl with ⟨ct, il⟩; simp [hct]
  | classPost =>
    refine ⟨[], ?_, by simp⟩
    unfold headStep
    cases st.class_ctx_stack with
    | nil => simp
    | cons ctx stack => simp
  | funcPost =>
    refine ⟨[], ?_, by simp⟩
    unfold headStep
    cases st.init_flag_stack with
    | nil => simp
    | cons prev stack => simp
  | expr credited e =>
    cases e with
    | call nid lineno func args kws =>
      obtain ⟨new, hc, hv, hd⟩ := visit_Call_step_effects st nid lineno func args kws
      refine ⟨new, by simpa [headStep] using hc, ?_⟩
      intro o
      rcases hd with h | ⟨anid, aln, af, aargs, akws, comp, hhead, ho, hnew⟩
      · subst h
        simp
      · subst hnew
        have hasplit : ∃ restArgs, args = PExpr.call anid aln af aargs akws :: restArgs := by
          cases args with
          | nil => simp at hhead
          | cons a0 r0 =>
            simp only [List.head?_cons, Option.some.injEq] at hhead
            exact ⟨r0, by rw [hhead]⟩
        obtain ⟨restArgs, ha⟩ := hasplit
        subst ha
        simp only [headIds, List.head?_cons, List.count_append, List.map_cons,
          List.map_nil, ho]
        omega
    | const v => exact ⟨[], by simp [headStep], by simp⟩
    | name n => exact ⟨[], by simp [headStep], by simp⟩
    | attr v a => exact ⟨[], by simp [headStep], by simp⟩
    | ifExp c tt ff => exact ⟨[], by simp [headStep], by simp⟩
    | listE es => exact ⟨[], by simp [headStep], by simp⟩
    | listComp e2 => exact ⟨[], by simp [headStep], by simp⟩
    | dyn => exact ⟨[], by simp [headStep], by simp⟩

/-- The global component accounting: the provenance multiset of everything
the traversal extracts is bounded by the multiset of consumed node
identities. -/
theorem runV_count (o : Nat) : ∀ (fuel : Nat) (tasks : List Task) (st : Visitor),
    ((runV fuel st tasks).components.map Component.origin).count o ≤
      ((st.components.map Component.origin).count o) + ((taskIds fuel tasks).count o) := by
  intro fuel
  induction fuel with
  | zero => intro tasks st; simp [runV, taskIds]
  | succ n ih =>
    intro tasks st
    cases tasks with
    | nil => simp [runV, taskIds]
    | cons t rest =>
      rw [show runV (n + 1) st (t :: rest) = runV n (headStep st t) (expandTask t ++ rest)
        from rfl]
      rw [show taskIds (n + 1) (t :: rest) = headIds t ++ taskIds n (expandTask t ++ rest)
        from rfl]
      obtain ⟨new, hc, hcnt⟩ := headStep_components st t
      have h1 := ih (expandTask t ++ rest) (headStep st t)
      rw [hc, List.map_append, List.count_append] at h1
      rw [List.count_append]
      have h2 := hcnt o
      omega

/-- C1.  For a syntax tree whose call nodes have pairwise distinct
identities (`taskIds` lists the identity of every call node exactly once, so
the hypothesis is exactly that distinctness), no two extracted component
records originate from the same call expression: the provenance annotations
of the emitted components are pairwise distinct, however often a call is
reachable from multiple visit paths. -/
theorem component_origin_nodup (fuel : Nat) (prog : List PStmt)
    (h : (taskIds fuel (stmtTasks prog)).Nodup) :
    ((runVisitor fuel prog).components.map Component.origin).Nodup := by
  rw [List.nodup_iff_count_le_one] at h ⊢
  intro o
  have hcount := runV_count o fuel (stmtTasks prog) initVisitor
  have h0 : ((initVisitor.components.map Component.origin).count o) = 0 := by
    simp [initVisitor]
  unfold runVisitor
  have := h o
  omega

theorem inline_key_ne_empty (s : String) : ("_inline_" ++ s) ≠ "" := by
  intro h
  have hlen : ("_inline_" ++ s).length = 0 := by rw [h]; rfl
  rw [String.length_append, show ("_inline_" : String).length = 8 from rfl] at hlen
  omega

/-- Counterexample to C5 as stated: inside `__init__`, `sec.append_item(ui.Select())`
with an inline constructor argument records the edge
`sec —append_item→ _inline_33`, but the inline select is *not* extracted at
that point (the component list stays empty — only `add_item` extracts its
first argument), and the synthetic key is associated with the *previously*
extracted component of the class (here a button from an earlier statement),
not with the inline call the edge is about. -/
theorem track_hierarchy_inline_claim_counterexample :
    (visit_Call_step
        { initVisitor with
          in_init_method := true
          class_components := [⟨"button", [("label", PropVal.v (PyVal.str "a"))], 3, 99⟩] }
        40 10 (PExpr.attr (PExpr.name "sec") "append_item")
        [PExpr.call 33 12 (PExpr.attr (PExpr.name "ui") "Select") [] []]
        []).hierarchy_relationships
      = [⟨"sec", "_inline_33", "append_item", 10⟩] ∧
    dictGet "_inline_33"
        (visit_Call_step
          { initVisitor with
            in_init_method := true
            class_components := [⟨"button", [("label", PropVal.v (PyVal.str "a"))], 3, 99⟩] }
          40 10 (PExpr.attr (PExpr.name "sec") "append_item")
          [PExpr.call 33 12 (PExpr.attr (PExpr.name "ui") "Select") [] []]
          []).hierarchy_tracking
      = some (HNode.item ⟨"button", [("label", PropVal.v (PyVal.str "a"))], 3, 99⟩ 12) ∧
    (visit_Call_step
        { initVisitor with
          in_init_method := true
          class_components := [⟨"button", [("label", PropVal.v (PyVal.str "a"))], 3, 99⟩] }
        40 10 (PExpr.attr (PExpr.name "sec") "append_item")
        [PExpr.call 33 12 (PExpr.attr (PExpr.name "ui") "Select") [] []]
        []).components
      = [] :=
  ⟨rfl, rfl, rfl⟩

/-- C5 (amended).  For every relationship-establishing call with a bound
receiver whose first argument is an inline constructor call, the recorded
edge's child is the synthetic `_inline_<id>` key, and that key is mapped to
the *last component previously appended to the current class* — the most
recently extracted component of the class at that point of the traversal,
which is the inline argument itself only when the method is `add_item` (the
only method that extracts its argument first); when the class has no
components yet, the key is recorded in the edge but mapped to nothing. -/
theorem track_hierarchy_inline_spec (st : Visitor) (line : Nat) (p a : String)
    (anid aln : Nat) (f : PExpr) (aargs : List PExpr)
    (akws : List (Option String × PExpr)) (rest : List PExpr)
    (method_name : String) (l : List Component) (c : Component)
    (hp : p ≠ "") (hcc : st.class_components = l ++ [c]) :
    (_track_hierarchy_call st line (PExpr.attr (PExpr.name p) a)
        (PExpr.call anid aln f aargs akws :: rest) method_name).hierarchy_relationships
      = st.hierarchy_relationships ++
        [⟨p, "_inline_" ++ toString anid, method_name, line⟩] ∧
    dictGet ("_inline_" ++ toString anid)
        (_track_hierarchy_call st line (PExpr.attr (PExpr.name p) a)
          (PExpr.call anid aln f aargs akws :: rest) method_name).hierarchy_tracking
      = some (HNode.item c aln) := by
  unfold _track_hierarchy_call
  dsimp only
  rw [hcc, List.getLast?_concat]
  dsimp only
  rw [if_pos ?hcond]
  case hcond =>
    simp only [truthyS, Bool.and_eq_true, decide_eq_true_eq]
    exact ⟨hp, inline_key_ne_empty _⟩
  refine ⟨rfl, ?_⟩
  exact dictGet_insert_self _ _ _

/-- Witness for C5: `self.append_item(X(...))` (inline call node 5 at line 2)
in a class that has already extracted one button. -/
theorem track_hierarchy_inline_spec_witness :
    ("self" : String) ≠ "" ∧
    ({ initVisitor with class_components := [⟨"button", [], 3, 99⟩] } : Visitor).class_components
      = [] ++ [⟨"button", [], 3, 99⟩] ∧
    ((_track_hierarchy_call
        { initVisitor with class_components := [⟨"button", [], 3, 99⟩] }
        10 (PExpr.attr (PExpr.name "self") "append_item")
        [PExpr.call 5 2 (PExpr.name "x") [] []] "append_item").hierarchy_relationships
      = ({ initVisitor with class_components := [⟨"button", [], 3, 99⟩] } :
          Visitor).hierarchy_relationships ++
        [⟨"self", "_inline_" ++ toString 5, "append_item", 10⟩] ∧
    dictGet ("_inline_" ++ toString 5)
        (_track_hierarchy_call
          { initVisitor with class_components := [⟨"button", [], 3, 99⟩] }
          10 (PExpr.attr (PExpr.name "self") "append_item")
          [PExpr.call 5 2 (PExpr.name "x") [] []] "append_item").hierarchy_tracking
      = some (HNode.item ⟨"button", [], 3, 99⟩ 2)) :=
  ⟨by decide, rfl,
    track_hierarchy_inline_spec
      { initVisitor with class_components := [⟨"button", [], 3, 99⟩] }
      10 "self" "append_item" 5 2 (PExpr.name "x") [] [] []
      "append_item" [] ⟨"button", [], 3, 99⟩ (by decide) rfl⟩

/-- Counterexample to C9 as stated: the binding `opts = [SelectOption(label="x")]`
is made inside the body of class `A`, yet while processing class `B` the
select's `options=opts` reference resolves through that binding — the
extracted select carries the fully resolved option list, which would be
impossible if the binding table were scope-local to one declaration. -/
theorem variables_scope_claim_counterexample :
    (runVisitor 100
      [ PStmt.classDef "A" [PExpr.name "View"]
          [ PStmt.assign [PTarget.tname "opts"]
              (PExpr.listE [PExpr.call 1 6
                (PExpr.attr (PExpr.name "discord") "SelectOption") []
                [(some "label", PExpr.const (SVal.sstr "x"))]]) 6 ] 5,
        PStmt.classDef "B" [PExpr.name "View"]
          [ PStmt.assign [PTarget.tname "sel"]
              (PExpr.call 2 8 (PExpr.attr (PExpr.name "ui") "Select") []
                [(some "options", PExpr.name "opts")]) 8 ] 7 ]).components
      = [⟨"select_menu", [("options", PropVal.options [[("label", PyVal.str "x")]])], 8, 2⟩] :=
  rfl

/-- C9 (amended).  The binding table is traversal-global, not scope-local:
entering a recognized class declaration saves and resets the class context
and component list but leaves the binding table untouched, and leaving the
declaration (which publishes the view, clears the hierarchy state and
restores the saved context) leaves it untouched as well — so bindings made
inside one declaration body remain visible inside every later declaration
of the same traversal. -/
theorem class_scope_variables_persist (st : Visitor) (nm : String)
    (bases : List PExpr) (body : List PStmt) (lineno : Nat) :
    (headStep st (Task.stmt (PStmt.classDef nm bases body lineno))).variables'
      = st.variables' ∧
    (headStep st Task.classPost).variables' = st.variables' := by
  constructor
  · unfold headStep
    cases hct : classTypeOf bases with
    | none => simp [hct]
    | some ctl => rcases ctl with ⟨ct, il⟩; simp [hct]
  · unfold headStep
    cases st.class_ctx_stack with
    | nil => simp
    | cons ctx stack => simp

/-- Witness for C1: a multi-target assignment whose value is a single button
call — the call is classified once even though the target loop visits it for
each target. -/
theorem component_origin_nodup_witness :
    (taskIds 50 (stmtTasks [.assign [.tname "a", .tname "b"]
      (.call 7 3 (.attr (.name "ui") "Button") [] [(some "label", .const (.sstr "hi"))])
      3])).Nodup ∧
    ((runVisitor 50 [.assign [.tname "a", .tname "b"]
      (.call 7 3 (.attr (.name "ui") "Button") [] [(some "label", .const (.sstr "hi"))])
      3]).components.map Component.origin).Nodup :=
  ⟨by decide, component_origin_nodup 50 _ (by decide)⟩

end CV2
